import Mathlib

/-!
Shallow embedding of the `OllamaService` class of `vscode-ollama-chat`
(src: the single service source file).  Strings are modelled as `List Char`
(`Str`); JavaScript string operations (`trim`, `toLowerCase`, `split`,
`includes`, `startsWith`, slicing, template concatenation) are modelled as
functions over `Str` with JavaScript semantics.  Fallible operations
(`fetch`, `openTextDocument`, ...) are modelled through an `Env` of oracles
returning `Except Str`, where the error value is the thrown `Error`'s
`.message`; interpolating an error object into a template literal is
modelled as prepending `"Error: "` (JavaScript's `String(error)` for an
`Error`).  Remote traffic is recorded as a trace of `RemoteCall`s.
-/

/-- JavaScript strings, modelled as lists of characters. -/
abbrev Str := List Char

/-- ASCII whitespace as recognised by the JS `\s` class and `trim`
(space, tab, newline, carriage return, vertical tab, form feed). -/
def isWS (c : Char) : Bool :=
  c = ' ' || c = '\t' || c = '\n' || c = '\r' || c = '\x0b' || c = '\x0c'

/-- JS `\w`: ASCII letters, digits, and underscore. -/
def isWordChar (c : Char) : Bool :=
  ('a' ≤ c && c ≤ 'z') || ('A' ≤ c && c ≤ 'Z') || ('0' ≤ c && c ≤ '9') || c = '_'

/-- ASCII decimal digit (JS `\d`). -/
def isDigitCh (c : Char) : Bool := '0' ≤ c && c ≤ '9'

/-- ASCII lower-casing of one character (`String.prototype.toLowerCase`
restricted to ASCII, which is all the source ever feeds it). -/
def toLowerCh (c : Char) : Char :=
  if 'A' ≤ c && c ≤ 'Z' then Char.ofNat (c.toNat + 32) else c

/-- `String.prototype.toLowerCase`. -/
def toLowerStr (s : Str) : Str := s.map toLowerCh

/-- `String.prototype.trim`. -/
def trimJS (s : Str) : Str :=
  ((s.dropWhile isWS).reverse.dropWhile isWS).reverse

/-- `String.prototype.split(c)` for a one-character separator:
always returns at least one (possibly empty) part. -/
def splitOnChar (c : Char) : Str → List Str
  | [] => [[]]
  | x :: xs =>
    if x = c then [] :: splitOnChar c xs
    else
      match splitOnChar c xs with
      | [] => [[x]]
      | y :: ys => (x :: y) :: ys

/-- `Array.prototype.join(sep)` for a one-character separator. -/
def joinChar (c : Char) : List Str → Str
  | [] => []
  | [x] => x
  | x :: xs => x ++ c :: joinChar c xs

/-- `String.prototype.includes` (substring containment). -/
def includesStr (needle : Str) : Str → Bool
  | [] => needle.isPrefixOf []
  | c :: t => needle.isPrefixOf (c :: t) || includesStr needle t

/-- Number rendered in decimal, as JS template interpolation does. -/
def natToStr (n : Nat) : Str := (Nat.repr n).data

/-- `parseInt` on a nonempty all-digit string. -/
def parseDigits (s : Str) : Nat :=
  s.foldl (fun n c => n * 10 + (c.toNat - 48)) 0

/-!  Matchers for the handful of regular expressions used by the source.
Each is an explicit scanner whose behaviour coincides with the JS regex on
the patterns involved (the patterns are backtracking-free in the sense that
maximal munch of `\w+`, `\s+`, `\S+`, `\d+` is equivalent, because each such
group is followed by a token its own character class cannot match). -/

/-- Consume a literal prefix, returning the rest. -/
def afterLit (lit : Str) (s : Str) : Option Str :=
  if lit.isPrefixOf s then some (s.drop lit.length) else none

/-- Consume `\s+` (at least one whitespace character), maximal munch. -/
def afterWS1 (s : Str) : Option Str :=
  match s with
  | c :: rest => if isWS c then some (rest.dropWhile isWS) else none
  | [] => none

/-- Does the string start with a `\w` character? -/
def headIsWord (s : Str) : Bool :=
  match s with
  | c :: _ => isWordChar c
  | [] => false

/-- `^function\s+\w+` on an (already trimmed) line. -/
def startsFuncKw (t : Str) : Bool :=
  match afterLit "function".data t with
  | some r =>
    match afterWS1 r with
    | some r2 => headIsWord r2
    | none => false
  | none => false

/-- `^async\s+function\s+\w+` (the `(async\s+)?` group taken). -/
def startsAsyncFuncKw (t : Str) : Bool :=
  match afterLit "async".data t with
  | some r =>
    match afterWS1 r with
    | some r2 => startsFuncKw r2
    | none => false
  | none => false

/-- `^\w+\s*=\s*function` (the assignment form, group not taken). -/
def startsAssignFunc (t : Str) : Bool :=
  let w := t.takeWhile isWordChar
  if w = [] then false
  else
    let r := (t.drop w.length).dropWhile isWS
    match r with
    | '=' :: r2 => ("function".data).isPrefixOf (r2.dropWhile isWS)
    | _ => false

/-- `^async\s+\w+\s*=\s*function` (the assignment form, group taken). -/
def startsAsyncAssignFunc (t : Str) : Bool :=
  match afterLit "async".data t with
  | some r =>
    match afterWS1 r with
    | some r2 => startsAssignFunc r2
    | none => false
  | none => false

/-- The function-start test of `extractFunctions`:
`line.trim().match(/^(async\s+)?function\s+\w+/) ||
 line.trim().match(/^(async\s+)?\w+\s*=\s*function/)` on the trimmed line. -/
def isFuncStart (t : Str) : Bool :=
  (startsFuncKw t || startsAsyncFuncKw t) ||
  (startsAssignFunc t || startsAsyncAssignFunc t)

/-- `^class\s+\w+` on an (already trimmed) line. -/
def startsClassKw (t : Str) : Bool :=
  match afterLit "class".data t with
  | some r =>
    match afterWS1 r with
    | some r2 => headIsWord r2
    | none => false
  | none => false

/-- First match of `/\w+/` anywhere in the line (`line.match(/\w+/)?.[0]`). -/
def firstWord : Str → Option Str
  | [] => none
  | c :: cs => if isWordChar c then some (c :: cs.takeWhile isWordChar) else firstWord cs

/-- `line.match(/\w+/)?.[0] || 'anonymous'`. -/
def nameOfLine (line : Str) : Str :=
  match firstWord line with
  | some w => w
  | none => "anonymous".data

/-- Capture of `/^(const|let|var)\s+(\w+)/` (group 2), on the raw line. -/
def varDeclName (line : Str) : Option Str :=
  let tryKw (kw : Str) : Option Str :=
    match afterLit kw line with
    | some r =>
      match afterWS1 r with
      | some r2 =>
        let w := r2.takeWhile isWordChar
        if w = [] then none else some w
      | none => none
    | none => none
  match tryKw "const".data with
  | some w => some w
  | none =>
    match tryKw "let".data with
    | some w => some w
    | none => tryKw "var".data

/-- Capture of `/^(async\s+)?function\s+(\w+)/` (the name group), raw line. -/
def funcDeclName (line : Str) : Option Str :=
  let tryAt (s : Str) : Option Str :=
    match afterLit "function".data s with
    | some r =>
      match afterWS1 r with
      | some r2 =>
        let w := r2.takeWhile isWordChar
        if w = [] then none else some w
      | none => none
    | none => none
  match afterLit "async".data line with
  | some r =>
    match afterWS1 r with
    | some r2 =>
      match tryAt r2 with
      | some w => some w
      | none => tryAt line
    | none => tryAt line
  | none => tryAt line

/-- Capture of `/^class\s+(\w+)/` (group 1), on the raw line. -/
def classDeclName (line : Str) : Option Str :=
  match afterLit "class".data line with
  | some r =>
    match afterWS1 r with
    | some r2 =>
      let w := r2.takeWhile isWordChar
      if w = [] then none else some w
    | none => none
  | none => none

/-- `/^[a-z][a-zA-Z0-9]*$/`. -/
def isCamelCase (w : Str) : Bool :=
  match w with
  | c :: rest => ('a' ≤ c && c ≤ 'z') && rest.all (fun d =>
      ('a' ≤ d && d ≤ 'z') || ('A' ≤ d && d ≤ 'Z') || ('0' ≤ d && d ≤ '9'))
  | [] => false

/-- `/^[A-Z][a-zA-Z0-9]*$/`. -/
def isPascalCase (w : Str) : Bool :=
  match w with
  | c :: rest => ('A' ≤ c && c ≤ 'Z') && rest.all (fun d =>
      ('a' ≤ d && d ≤ 'z') || ('A' ≤ d && d ≤ 'Z') || ('0' ≤ d && d ≤ '9'))
  | [] => false

/-- Quote characters recognised by the `['"]` class (apostrophe is code 39). -/
def isQuoteCh (c : Char) : Bool := c = '"' || c.toNat = 39

/-- Attempt `/from\s+['"]([^'"]+)['"]/` anchored at the current position:
literal `from`, `\s+`, a quote, one or more non-quote characters (captured),
a closing quote (either kind). -/
def fromCaptureAt (s : Str) : Option Str :=
  match afterLit "from".data s with
  | some r =>
    match afterWS1 r with
    | some r2 =>
      match r2 with
      | q :: r3 =>
        if isQuoteCh q then
          let body := r3.takeWhile (fun c => !isQuoteCh c)
          if body = [] then none
          else
            match r3.drop body.length with
            | c :: _ => if isQuoteCh c then some body else none
            | [] => none
        else none
      | [] => none
    | none => none
  | none => none

/-- First match of `/from\s+['"]([^'"]+)['"]/` anywhere in the string. -/
def fromCapture : Str → Option Str
  | [] => none
  | c :: cs =>
    match fromCaptureAt (c :: cs) with
    | some w => some w
    | none => fromCapture cs

/-- Attempt `/import\s+(\w+)/` anchored at the current position. -/
def importCaptureAt (s : Str) : Option Str :=
  match afterLit "import".data s with
  | some r =>
    match afterWS1 r with
    | some r2 =>
      let w := r2.takeWhile isWordChar
      if w = [] then none else some w
    | none => none
  | none => none

/-- First match of `/import\s+(\w+)/` anywhere in the string. -/
def importCapture : Str → Option Str
  | [] => none
  | c :: cs =>
    match importCaptureAt (c :: cs) with
    | some w => some w
    | none => importCapture cs

/-- `imp.match(/from\s+['"]([^'"]+)['"]/)?.[1] || imp.match(/import\s+(\w+)/)?.[1]`
(both captures are nonempty, so JS falsiness coincides with `none`). -/
def importNameOf (imp : Str) : Option Str :=
  match fromCapture imp with
  | some w => some w
  | none => importCapture imp

/-- Attempt `/@edit\s+(\S+)\s+(\d+)\s+(.+)/` anchored at the current position;
returns (file path, digit string, content).  `.` excludes line terminators. -/
def editCaptureAt (s : Str) : Option (Str × Str × Str) :=
  match afterLit "@edit".data s with
  | some r =>
    match afterWS1 r with
    | some r1 =>
      let fp := r1.takeWhile (fun c => !isWS c)
      if fp = [] then none
      else
        match afterWS1 (r1.drop fp.length) with
        | some r2 =>
          let ds := r2.takeWhile isDigitCh
          if ds = [] then none
          else
            match afterWS1 (r2.drop ds.length) with
            | some r3 =>
              let ct := r3.takeWhile (fun c => c ≠ '\n' && c ≠ '\r')
              if ct = [] then none else some (fp, ds, ct)
            | none => none
        | none => none
    | none => none
  | none => none

/-- First match of `/@edit\s+(\S+)\s+(\d+)\s+(.+)/i` anywhere in the string
(the subject is already lower-case, so the `i` flag is moot). -/
def editCapture : Str → Option (Str × Str × Str)
  | [] => none
  | c :: cs =>
    match editCaptureAt (c :: cs) with
    | some m => some m
    | none => editCapture cs

/-! ## Data model -/

/-- `ChatMessage.role` (`'user' | 'assistant'`). -/
inductive Role : Type where
  | user
  | assistant
deriving DecidableEq

/-- `ChatMessage` interface. -/
structure ChatMessage where
  role : Role
  content : Str
  timestamp : Str
deriving DecidableEq

/-- One `{role, content}` entry of an outgoing `/api/chat` body. -/
structure WireMsg where
  role : Role
  content : Str
deriving DecidableEq

/-- Body of a `POST /api/chat` request (`{model, messages, stream}`). -/
structure ChatRequest where
  model : Str
  messages : List WireMsg
  stream : Bool
deriving DecidableEq

/-- One observable request to the remote inference service:
either `POST /api/chat` or `GET /api/tags` (`listModels`). -/
inductive RemoteCall : Type where
  | chatReq (req : ChatRequest)
  | tagsReq
deriving DecidableEq

/-- `OllamaModel` interface. -/
structure OllamaModel where
  name : Str
  size : Str
  modified_at : Str
deriving DecidableEq

/-- A `vscode.Diagnostic`, reduced to the fields the source reads
(`range.start.line`, `message`, `severity`; severity 0 = Error, 1 = Warning). -/
structure Diag where
  line : Nat
  message : Str
  severity : Nat
deriving DecidableEq

/-- Record produced by `extractFunctions`. -/
structure FuncRec where
  name : Str
  content : Str
  lines : Nat
deriving DecidableEq

/-- Record produced by `extractClasses`. -/
structure ClassRec where
  name : Str
  content : Str
deriving DecidableEq

/-- Record produced by `findCodeDuplicates` (`{startLine, endLine}`). -/
structure Dup where
  startLine : Nat
  endLine : Nat
deriving DecidableEq

/-- The mutable fields of an `OllamaService` instance. -/
structure SState where
  apiUrl : Str
  model : Str
  messageHistory : List ChatMessage
  workspaceContext : Str
  currentFileContext : Option (Str × Str)
deriving DecidableEq

/-- The external world: clock, workspace, remote server.  Fallible calls
return `Except Str` whose error is the thrown `Error`'s message. -/
structure Env where
  now : Str
  workspaceOpen : Bool
  tags : Except Str (List OllamaModel)
  chat : ChatRequest → Except Str Str
  findFiles : Except Str (List Str)
  openTextDocument : Str → Except Str Str
  diagnostics : Str → List Diag
  packageDeps : Except Str (List (Str × Str))

/-! ## Heuristic Code Inspector (pure functions over file text) -/

/-- `calculateCodeComplexity`. -/
def calculateCodeComplexity (content : Str) : Nat :=
  (splitOnChar '\n' content).foldl (fun complexity line =>
    let trimmed := trimJS line
    if includesStr "if".data trimmed || includesStr "else".data trimmed ||
       includesStr "for".data trimmed || includesStr "while".data trimmed ||
       includesStr "switch".data trimmed || includesStr "catch".data trimmed ||
       includesStr "&&".data trimmed || includesStr "||".data trimmed
    then complexity + 1 else complexity) 1

/-- `calculateFunctionComplexity` (verbatim duplicate of the file-level one
in the source, applied to a function body). -/
def calculateFunctionComplexity (content : Str) : Nat :=
  (splitOnChar '\n' content).foldl (fun complexity line =>
    let trimmed := trimJS line
    if includesStr "if".data trimmed || includesStr "else".data trimmed ||
       includesStr "for".data trimmed || includesStr "while".data trimmed ||
       includesStr "switch".data trimmed || includesStr "catch".data trimmed ||
       includesStr "&&".data trimmed || includesStr "||".data trimmed
    then complexity + 1 else complexity) 1

/-- The loop of `extractFunctions`: walks the lines carrying
(`currentFunction` paired with `functionContent`, accumulated `functions`). -/
def extractFunctionsLoop : List Str → Option (FuncRec × List Str) → List FuncRec →
    List FuncRec
  | [], cur, acc =>
    acc ++ (match cur with | some (f, _) => [f] | none => [])
  | line :: rest, cur, acc =>
    if isFuncStart (trimJS line) then
      extractFunctionsLoop rest
        (some ({ name := nameOfLine line, content := line, lines := 1 }, [line]))
        (acc ++ (match cur with | some (f, _) => [f] | none => []))
    else
      match cur with
      | some (f, fc) =>
        let fc' := fc ++ [line]
        extractFunctionsLoop rest
          (some ({ f with content := joinChar '\n' fc', lines := fc'.length }, fc')) acc
      | none => extractFunctionsLoop rest none acc

/-- `extractFunctions`. -/
def extractFunctions (content : Str) : List FuncRec :=
  extractFunctionsLoop (splitOnChar '\n' content) none []

/-- The loop of `extractClasses`. -/
def extractClassesLoop : List Str → Option (ClassRec × List Str) → List ClassRec →
    List ClassRec
  | [], cur, acc =>
    acc ++ (match cur with | some (f, _) => [f] | none => [])
  | line :: rest, cur, acc =>
    if startsClassKw (trimJS line) then
      extractClassesLoop rest
        (some ({ name := nameOfLine line, content := line }, [line]))
        (acc ++ (match cur with | some (f, _) => [f] | none => []))
    else
      match cur with
      | some (f, fc) =>
        let fc' := fc ++ [line]
        extractClassesLoop rest
          (some ({ f with content := joinChar '\n' fc' }, fc')) acc
      | none => extractClassesLoop rest none acc

/-- `extractClasses`. -/
def extractClasses (content : Str) : List ClassRec :=
  extractClassesLoop (splitOnChar '\n' content) none []

/-- `findCodeDuplicates`: both loops run `i`, `j` strictly below
`lines.length - windowSize`, the inner one starting at `i + windowSize`. -/
def findCodeDuplicates (content : Str) : List Dup :=
  let lines := splitOnChar '\n' content
  let windowSize := 5
  (List.range (lines.length - windowSize)).foldl (fun dups i =>
    let window := joinChar '\n' ((lines.drop i).take windowSize)
    ((List.range (lines.length - windowSize)).filter (fun j => i + windowSize ≤ j)).foldl
      (fun dups2 j =>
        let compareWindow := joinChar '\n' ((lines.drop j).take windowSize)
        dups2 ++ (if window = compareWindow
          then [{ startLine := i + 1, endLine := i + windowSize }] else [])) dups) []

/-- `checkNamingConventions`. -/
def checkNamingConventions (content : Str) : List Str :=
  (splitOnChar '\n' content).enum.foldl (fun issues p =>
    let index := p.1
    let line := p.2
    let issues := match varDeclName line with
      | some w =>
        if !isCamelCase w then
          issues ++ ["Line ".data ++ natToStr (index + 1) ++ ": Variable \x27".data ++
            w ++ "\x27 should use camelCase".data]
        else issues
      | none => issues
    let issues := match funcDeclName line with
      | some w =>
        if !isCamelCase w then
          issues ++ ["Line ".data ++ natToStr (index + 1) ++ ": Function \x27".data ++
            w ++ "\x27 should use camelCase".data]
        else issues
      | none => issues
    let issues := match classDeclName line with
      | some w =>
        if !isPascalCase w then
          issues ++ ["Line ".data ++ natToStr (index + 1) ++ ": Class \x27".data ++
            w ++ "\x27 should use PascalCase".data]
        else issues
      | none => issues
    issues) []

/-- `extractImports`. -/
def extractImports (content : Str) : List Str :=
  (splitOnChar '\n' content).foldl (fun imports line =>
    if ("import".data).isPrefixOf (trimJS line) then imports ++ [trimJS line]
    else imports) []

/-- `findUnusedImports`. -/
def findUnusedImports (content : Str) (imports : List Str) : List Str :=
  imports.foldl (fun unused imp =>
    match importNameOf imp with
    | some importName =>
      if !includesStr importName content then unused ++ [imp] else unused
    | none => unused) []

/-! ## Workspace Accessor and per-command helpers -/

/-- The nested plain-object file tree of `buildFileTree`:
an insertion-ordered map; a `none` value is a file, a `some` value a folder. -/
inductive FileTree : Type where
  | node : List (Str × Option FileTree) → FileTree

/-- `current[part] = v`, keeping insertion order (JS object key update). -/
def setEntry : List (Str × Option FileTree) → Str → Option FileTree →
    List (Str × Option FileTree)
  | [], k, v => [(k, v)]
  | (k', v') :: rest, k, v =>
    if k' = k then (k, v) :: rest else (k', v') :: setEntry rest k v

/-- `current[part]` lookup (outer `none` = key absent). -/
def lookupEntry : List (Str × Option FileTree) → Str → Option (Option FileTree)
  | [], _ => none
  | (k', v') :: rest, k => if k' = k then some v' else lookupEntry rest k

/-- The `parts.forEach` body of `buildFileTree`: the last part becomes a file
(`null`); an intermediate part is entered, materialising `{}` when the slot
is absent or holds `null` (the `if (!current[part])` test). -/
def insertParts : List (Str × Option FileTree) → List Str →
    List (Str × Option FileTree)
  | t, [] => t
  | t, [p] => setEntry t p none
  | t, p :: q :: rest =>
    match lookupEntry t p with
    | some (some (FileTree.node sub)) =>
      setEntry t p (some (FileTree.node (insertParts sub (q :: rest))))
    | _ => setEntry t p (some (FileTree.node (insertParts [] (q :: rest))))

/-- `buildFileTree` over the relative paths of the found files. -/
def buildFileTree (files : List Str) : FileTree :=
  FileTree.node (files.foldl (fun tree file =>
    insertParts tree (splitOnChar '/' file)) [])

/-- `'  '.repeat(level)`. -/
def indentOf : Nat → Str
  | 0 => []
  | n + 1 => "  ".data ++ indentOf n

mutual

/-- `formatFileTree`. -/
def formatFileTree : FileTree → Nat → Str
  | .node entries, level => formatEntries entries level

/-- The `Object.entries(tree).forEach` body of `formatFileTree`. -/
def formatEntries : List (Str × Option FileTree) → Nat → Str
  | [], _ => []
  | (name, none) :: rest, level =>
    indentOf level ++ "📄 ".data ++ name ++ "\n".data ++ formatEntries rest level
  | (name, some sub) :: rest, level =>
    indentOf level ++ "📁 ".data ++ name ++ "/\n".data ++
      formatFileTree sub (level + 1) ++ formatEntries rest level

end

/-- `scanWorkspace`: total (its `try` converts a `findFiles` failure into a
returned string). -/
def scanWorkspace (env : Env) : Str :=
  if !env.workspaceOpen then "No workspace folder is open.".data
  else
    match env.findFiles with
    | .error e => "Error scanning workspace: Error: ".data ++ e
    | .ok files =>
      "Workspace Structure:\n\n".data ++ formatFileTree (buildFileTree files) 0

/-- `readFile`: fails when no workspace is open or the document cannot be
opened, re-wrapping the failure message as the source's catch does. -/
def readFile (filePath : Str) (env : Env) : Except Str Str :=
  match (if !env.workspaceOpen then Except.error "No workspace folder is open.".data
         else env.openTextDocument filePath) with
  | .ok text => .ok text
  | .error e =>
    .error ("Failed to read file ".data ++ filePath ++ ": Error: ".data ++ e)

/-- `getDiagnostics`: empty when no workspace is open; opening the document
may fail (that failure propagates to the caller uncaught, as in the source). -/
def getDiagnostics (filePath : Str) (env : Env) : Except Str (List Diag) :=
  if !env.workspaceOpen then .ok []
  else
    match env.openTextDocument filePath with
    | .ok _ => .ok (env.diagnostics filePath)
    | .error e => .error e

/-- `analyzeCode`. -/
def analyzeCode (filePath : Str) (env : Env) : Except Str Str :=
  match (do
    let content ← readFile filePath env
    let diagnostics ← getDiagnostics filePath env
    let lines := splitOnChar '\n' content
    pure ("Code Analysis for ".data ++ filePath ++ ":\n\n".data ++
      "📊 File Statistics:\n".data ++
      "- Total lines: ".data ++ natToStr lines.length ++ "\n".data ++
      "- Non-empty lines: ".data ++
        natToStr (lines.filter (fun l => (trimJS l).length > 0)).length ++ "\n".data ++
      (if diagnostics.length > 0 then
        "\n⚠️ Issues Found:\n".data ++ diagnostics.foldl (fun s d =>
          s ++ "- Line ".data ++ natToStr (d.line + 1) ++ ": ".data ++ d.message ++
            "\n".data ++
          (if d.severity = 0 then "  Error: ".data ++ d.message ++ "\n".data
           else if d.severity = 1 then "  Warning: ".data ++ d.message ++ "\n".data
           else [])) []
       else "\n✅ No issues found in the code.\n".data))) with
  | Except.ok a => Except.ok a
  | Except.error e =>
    .error ("Failed to analyze code in ".data ++ filePath ++ ": Error: ".data ++ e)

/-- `searchCode`. -/
def searchCode (query : Str) (env : Env) : Except Str Str :=
  match (do
    if !env.workspaceOpen then
      Except.error "No workspace folder is open.".data
    else do
      let files ← env.findFiles
      let acc ← files.foldlM (fun (acc : Str × Nat) file => do
        let text ← env.openTextDocument file
        let lines := splitOnChar '\n' text
        pure (lines.enum.foldl (fun (a : Str × Nat) p =>
          if includesStr (toLowerStr query) (toLowerStr p.2) then
            (a.1 ++ "📄 ".data ++ file ++ ":".data ++ natToStr (p.1 + 1) ++
              "\n".data ++ trimJS p.2 ++ "\n\n".data, a.2 + 1)
          else a) acc)) ("🔍 Search Results:\n\n".data, 0)
      if acc.2 = 0 then pure "No matches found for your search query.".data
      else pure (acc.1 ++ "Found ".data ++ natToStr acc.2 ++ " matches.".data)) with
  | Except.ok a => Except.ok a
  | Except.error e => .error ("Failed to search code: Error: ".data ++ e)

/-- `editFile`.  `document.lineAt(line - 1)` throws on an out-of-range index
(modelled here with the message `Illegal value for line`); the workspace edit
itself is not observable in this model. -/
def editFile (filePath : Str) (line : Nat) (content : Str) (env : Env) :
    Except Str Str :=
  match (do
    if !env.workspaceOpen then
      Except.error "No workspace folder is open.".data
    else do
      let document ← env.openTextDocument filePath
      let lineCount := (splitOnChar '\n' document).length
      if line = 0 || line > lineCount then
        Except.error "Illegal value for line".data
      else
        pure ("✅ Successfully edited line ".data ++ natToStr line ++ " in ".data ++
          filePath)) with
  | Except.ok a => Except.ok a
  | Except.error e => .error ("Failed to edit file: Error: ".data ++ e)

/-- `explainCode`. -/
def explainCode (filePath : Str) (env : Env) : Except Str Str :=
  match (do
    let content ← readFile filePath env
    let diagnostics ← getDiagnostics filePath env
    let lines := splitOnChar '\n' content
    let imports := lines.filter (fun l => ("import".data).isPrefixOf (trimJS l))
    let functions := lines.filter (fun l =>
      ("function".data).isPrefixOf (trimJS l) ||
      ("async function".data).isPrefixOf (trimJS l))
    let classes := lines.filter (fun l => ("class".data).isPrefixOf (trimJS l))
    let complexity := calculateCodeComplexity content
    pure ("📝 Code Explanation for ".data ++ filePath ++ ":\n\n".data ++
      "📊 File Overview:\n".data ++
      "- Total lines: ".data ++ natToStr lines.length ++ "\n".data ++
      "- Non-empty lines: ".data ++
        natToStr (lines.filter (fun l => (trimJS l).length > 0)).length ++ "\n".data ++
      "\n🔍 Code Structure:\n".data ++
      "- Imports: ".data ++ natToStr imports.length ++ "\n".data ++
      "- Functions: ".data ++ natToStr functions.length ++ "\n".data ++
      "- Classes: ".data ++ natToStr classes.length ++ "\n".data ++
      (if diagnostics.length > 0 then
        "\n⚠️ Issues Found:\n".data ++ diagnostics.foldl (fun s d =>
          s ++ "- Line ".data ++ natToStr (d.line + 1) ++ ": ".data ++ d.message ++
            "\n".data) []
       else []) ++
      "\n📈 Code Complexity:\n".data ++
      "- Cyclomatic complexity: ".data ++ natToStr complexity ++ "\n".data ++
      (if complexity > 10 then "  ⚠️ High complexity detected\n".data
       else "  ✅ Good complexity level\n".data))) with
  | Except.ok a => Except.ok a
  | Except.error e => .error ("Failed to explain code: Error: ".data ++ e)

/-- `suggestRefactoring`. -/
def suggestRefactoring (filePath : Str) (env : Env) : Except Str Str :=
  match (do
    let content ← readFile filePath env
    let _diagnostics ← getDiagnostics filePath env
    let functions := extractFunctions content
    let longFunctions := functions.filter (fun f => f.lines > 20)
    let complexFunctions := functions.filter (fun f =>
      calculateFunctionComplexity f.content > 5)
    let duplicates := findCodeDuplicates content
    let namingIssues := checkNamingConventions content
    let header := "🔄 Refactoring Suggestions for ".data ++ filePath ++ ":\n\n".data
    let suggestions := header ++
      (if longFunctions.length > 0 then
        "⚠️ Long Functions Found:\n".data ++ longFunctions.foldl (fun s f =>
          s ++ "- ".data ++ f.name ++ " (".data ++ natToStr f.lines ++
            " lines)\n".data ++
            "  Consider breaking this function into smaller, more focused functions.\n".data)
          [] ++ "\n".data
       else []) ++
      (if complexFunctions.length > 0 then
        "⚠️ Complex Functions Found:\n".data ++ complexFunctions.foldl (fun s f =>
          s ++ "- ".data ++ f.name ++ " (complexity: ".data ++
            natToStr (calculateFunctionComplexity f.content) ++ ")\n".data ++
            "  Consider simplifying the logic or extracting complex conditions.\n".data)
          [] ++ "\n".data
       else []) ++
      (if duplicates.length > 0 then
        "⚠️ Potential Code Duplication:\n".data ++ duplicates.foldl (fun s d =>
          s ++ "- Similar code found in lines ".data ++ natToStr d.startLine ++
            "-".data ++ natToStr d.endLine ++ "\n".data ++
            "  Consider extracting this into a reusable function.\n".data) [] ++
          "\n".data
       else []) ++
      (if namingIssues.length > 0 then
        "⚠️ Naming Convention Issues:\n".data ++ namingIssues.foldl (fun s issue =>
          s ++ "- ".data ++ issue ++ "\n".data) [] ++ "\n".data
       else [])
    if suggestions = header then
      pure (suggestions ++
        "✅ No major refactoring suggestions found. The code looks well-structured.\n".data)
    else pure suggestions) with
  | Except.ok a => Except.ok a
  | Except.error e => .error ("Failed to suggest refactoring: Error: ".data ++ e)

/-- `getPackageDependencies`: its own `try` returns `[]` on any failure. -/
def getPackageDependencies (env : Env) : List (Str × Str) :=
  if !env.workspaceOpen then []
  else
    match env.packageDeps with
    | .ok deps => deps
    | .error _ => []

/-- `analyzeDependencies`.  (`if (dependencies)` in the source is always
true — a JS array is truthy — so the package-dependency header is always
emitted.) -/
def analyzeDependencies (filePath : Str) (env : Env) : Except Str Str :=
  match (do
    let content ← readFile filePath env
    let imports := extractImports content
    let unusedImports := findUnusedImports content imports
    let dependencies := getPackageDependencies env
    pure ("📦 Dependency Analysis for ".data ++ filePath ++ ":\n\n".data ++
      "🔍 Imports:\n".data ++
      imports.foldl (fun s imp => s ++ "- ".data ++ imp ++ "\n".data) [] ++
      "\n".data ++
      (if unusedImports.length > 0 then
        "⚠️ Unused Imports:\n".data ++
        unusedImports.foldl (fun s imp => s ++ "- ".data ++ imp ++ "\n".data) [] ++
        "\n".data
       else []) ++
      "📦 Package Dependencies:\n".data ++
      dependencies.foldl (fun s dep =>
        s ++ "- ".data ++ dep.1 ++ ": ".data ++ dep.2 ++ "\n".data) [])) with
  | Except.ok a => Except.ok a
  | Except.error e => .error ("Failed to analyze dependencies: Error: ".data ++ e)

/-! ## The chat paths: `sendMessage` and `handleCommand` -/

/-- The fixed `availableCommands` table (command, description). -/
def availableCommands : List (Str × Str) :=
  [("@workspace".data, "Show the workspace structure".data),
   ("@read".data, "Read contents of a file (usage: @read <filepath>)".data),
   ("@analyze".data, "Analyze code for issues (usage: @analyze <filepath>)".data),
   ("@search".data, "Search for code across files (usage: @search <query>)".data),
   ("@edit".data, "Edit a file (usage: @edit <filepath> <line> <content>)".data),
   ("@explain".data, "Explain code in a file (usage: @explain <filepath>)".data),
   ("@refactor".data, "Suggest code refactoring (usage: @refactor <filepath>)".data),
   ("@deps".data, "Show dependency analysis (usage: @deps <filepath>)".data),
   ("@understand".data,
    "Get detailed code understanding (usage: @understand <filepath>)".data),
   ("@help".data, "Show all available commands".data)]

/-- `getCommandSuggestions` (the `message.trim() === '@'` reply). -/
def getCommandSuggestions : Str :=
  "Available Commands:\n\n".data ++
  availableCommands.foldl (fun s cmd => s ++ cmd.1 ++ "\n".data) [] ++
  "\nType @help for detailed information about each command.".data

/-- The context-prefixing of `sendMessage` (workspace context first, then the
current-file context overriding it, as the source applies them in order). -/
def contextMessageOf (st : SState) (message : Str) : Str :=
  let contextMessage := message
  let contextMessage :=
    if st.workspaceContext ≠ [] then
      "Workspace Context:\n".data ++ st.workspaceContext ++
        "\n\nUser Question: ".data ++ message
    else contextMessage
  match st.currentFileContext with
  | some fc =>
    "Current File Context (".data ++ fc.1 ++ "):\n".data ++ fc.2 ++
      "\n\nUser Question: ".data ++ message
  | none => contextMessage

/-- `sendMessage`: returns the reply (or the propagated failure — the plain
chat path rethrows), the new state, and the remote calls made. -/
def sendMessage (message : Str) (st : SState) (env : Env) :
    Except Str Str × SState × List RemoteCall :=
  if trimJS message = "@".data then (.ok getCommandSuggestions, st, [])
  else
    let contextMessage := contextMessageOf st message
    let st1 := { st with messageHistory := st.messageHistory ++
      [{ role := Role.user, content := contextMessage, timestamp := env.now }] }
    let wireMessages : List WireMsg := st1.messageHistory.map (fun m =>
      { role := m.role, content := m.content })
    let req : ChatRequest := { model := st.model, messages := wireMessages, stream := false }
    match env.chat req with
    | .ok data =>
      (.ok data,
       { st1 with messageHistory := st1.messageHistory ++
         [{ role := Role.assistant, content := data, timestamp := env.now }] },
       [.chatReq req])
    | .error e => (.error e, st1, [.chatReq req])

/-- `baseCmd`: the part of `command.trim().toLowerCase()` before the first
colon, trimmed. -/
def baseCmdOf (command : Str) : Str :=
  trimJS ((splitOnChar ':' (toLowerStr (trimJS command))).headD [])

/-- `query`: the remainder after the first colon, re-joined on colons and
trimmed (empty when there is no colon). -/
def queryOf (command : Str) : Str :=
  trimJS (joinChar ':' (splitOnChar ':' (toLowerStr (trimJS command))).tail)

/-- The `@help` reply text. -/
def helpText : Str :=
  ("Available commands:\n@help - Show this help message\n" ++
   "@list - List available models\n@clear - Clear chat history\n" ++
   "@model <n> - Change the current model\n" ++
   "@info - Show current model information\n" ++
   "@workspace: <query> - Use workspace as context and answer the query\n" ++
   "@read <file>: <query> - Use file as context and answer the query\n" ++
   "@analyze <file> - Analyze code in a file\n" ++
   "@search <query> - Search code in workspace\n" ++
   "@edit <file> <line> <content> - Edit a file\n" ++
   "@explain <file> - Explain code in a file\n" ++
   "@refactor <file> - Suggest refactoring\n" ++
   "@deps <file> - Analyze dependencies\n" ++
   "@understand <file> - Get detailed code understanding with context").data

/-- The fixed five-point prompt of the `@understand` branch. -/
def understandPrompt (filePath fileContent : Str) : Str :=
  "Please analyze and explain this code file in detail:\nFile path: ".data ++
  filePath ++ "\nContent:\n".data ++ fileContent ++
  ("\n\nPlease provide:\n1. A high-level overview of what this file does\n" ++
   "2. Key functions and their purposes\n" ++
   "3. Important data structures or patterns used\n" ++
   "4. Any notable dependencies or relationships with other files\n" ++
   "5. Potential areas for improvement or optimization").data

/-- The body of `handleCommand` inside its `try` (the user turn is appended
first, then the command is dispatched).  Returns the produced reply or the
raised failure, the resulting state, and the remote calls made. -/
def handleCommandCore (command : Str) (st : SState) (env : Env) :
    Except Str Str × SState × List RemoteCall :=
  let st1 := { st with messageHistory := st.messageHistory ++
    [{ role := Role.user, content := command, timestamp := env.now }] }
  let baseCmd := baseCmdOf command
  let query := queryOf command
  if baseCmd = "@help".data then
    (.ok helpText, st1, [])
  else if baseCmd = "@list".data then
    match env.tags with
    | .ok models =>
      (.ok ("Available models:\n".data ++ joinChar '\n' (models.map (fun m =>
        "- ".data ++ m.name ++ " (".data ++ m.size ++ ")".data))), st1, [.tagsReq])
    | .error e => (.error e, st1, [.tagsReq])
  else if baseCmd = "@clear".data then
    (.ok "Chat history cleared".data, { st1 with messageHistory := [] }, [])
  else if baseCmd = "@info".data then
    (.ok ("Current model: ".data ++ st.model), st1, [])
  else if baseCmd = "@workspace".data then
    if query = [] then
      (.ok "Please provide a query after @workspace:".data, st1, [])
    else
      let workspaceFiles := scanWorkspace env
      let workspacePrompt := "Workspace Context:\n".data ++ workspaceFiles ++
        "\n\nUser Query: ".data ++ query
      let req : ChatRequest :=
        { model := st.model, messages := [{ role := Role.user, content := workspacePrompt }], stream := false }
      (env.chat req, st1, [.chatReq req])
  else if ("@model ".data).isPrefixOf baseCmd then
    let modelName := trimJS (baseCmd.drop 7)
    match env.tags with
    | .ok models =>
      if models.any (fun m => m.name == modelName) then
        (.ok ("Model changed to: ".data ++ modelName),
         { st1 with model := modelName, messageHistory := [] }, [.tagsReq])
      else
        (.ok ("Error: Model \"".data ++ modelName ++ "\" not found".data), st1,
         [.tagsReq])
    | .error e => (.error e, st1, [.tagsReq])
  else if ("@read ".data).isPrefixOf baseCmd then
    let filePath := trimJS (baseCmd.drop 6)
    if query = [] then
      (.ok "Please provide a query after the file path:".data, st1, [])
    else
      match readFile filePath env with
      | .error e => (.error e, st1, [])
      | .ok fileContent =>
        let filePrompt := "File Context (".data ++ filePath ++ "):\n".data ++
          fileContent ++ "\n\nUser Query: ".data ++ query
        let req : ChatRequest :=
          { model := st.model, messages := [{ role := Role.user, content := filePrompt }], stream := false }
        (env.chat req, st1, [.chatReq req])
  else if ("@understand ".data).isPrefixOf baseCmd then
    let filePath := trimJS (baseCmd.drop 12)
    match readFile filePath env with
    | .error e => (.error e, st1, [])
    | .ok fileContent =>
      let req : ChatRequest :=
        { model := st.model, messages := [{ role := Role.user, content := understandPrompt filePath fileContent }], stream := false }
      (env.chat req, st1, [.chatReq req])
  else if ("@analyze ".data).isPrefixOf baseCmd then
    (analyzeCode (trimJS (baseCmd.drop 9)) env, st1, [])
  else if ("@search ".data).isPrefixOf baseCmd then
    (searchCode (trimJS (baseCmd.drop 8)) env, st1, [])
  else if ("@edit ".data).isPrefixOf baseCmd then
    match editCapture baseCmd with
    | some m => (editFile m.1 (parseDigits m.2.1) m.2.2 env, st1, [])
    | none =>
      (.ok "Error: Invalid edit command format. Use @edit <file> <line> <content>".data,
       st1, [])
  else if ("@explain ".data).isPrefixOf baseCmd then
    (explainCode (trimJS (baseCmd.drop 9)) env, st1, [])
  else if ("@refactor ".data).isPrefixOf baseCmd then
    (suggestRefactoring (trimJS (baseCmd.drop 10)) env, st1, [])
  else if ("@deps ".data).isPrefixOf baseCmd then
    (analyzeDependencies (trimJS (baseCmd.drop 6)) env, st1, [])
  else
    (.ok ("Unknown command: ".data ++ baseCmd ++
      "\nType @help to see available commands".data), st1, [])

/-- Output of one `handleCommand` invocation. -/
structure HandleOut where
  result : Str
  state : SState
  calls : List RemoteCall
deriving DecidableEq

/-- `handleCommand`: the top-level catch converts a raised failure into the
returned string `Error executing command: <message>`; it always returns. -/
def handleCommand (command : Str) (st : SState) (env : Env) : HandleOut :=
  match handleCommandCore command st env with
  | (Except.ok r, s, calls) => { result := r, state := s, calls := calls }
  | (Except.error e, s, calls) =>
    { result := "Error executing command: ".data ++ e, state := s, calls := calls }

/-- The constructor `new OllamaService(apiUrl, model)`. -/
def initState (apiUrl model : Str) : SState :=
  { apiUrl := apiUrl, model := model, messageHistory := [],
    workspaceContext := [], currentFileContext := none }

/-! ## Concrete worlds used by witnesses and counterexamples -/

/-- A closed-workspace environment whose chat endpoint echoes the first
message content back (so prompts are observable in replies). -/
def echoEnv : Env :=
  { now := "2025-01-01T00:00:00.000Z".data, workspaceOpen := false,
    tags := Except.ok [{ name := "llama2".data, size := "3.8GB".data,
                         modified_at := "today".data }],
    chat := fun req =>
      Except.ok ((req.messages.headD { role := Role.user, content := [] }).content),
    findFiles := Except.ok [],
    openTextDocument := fun _ => Except.error "missing".data,
    diagnostics := fun _ => [], packageDeps := Except.ok [] }

/-- An environment whose model-listing endpoint fails. -/
def failTagsEnv : Env :=
  { echoEnv with tags := Except.error "boom".data }

/-- A fresh service session. -/
def demoState : SState := initState "http://localhost:11434".data "llama2".data

/-- An open-workspace environment with one readable file (`file.ts`). -/
def readEnv : Env :=
  { echoEnv with
    workspaceOpen := true
    openTextDocument := fun p =>
      if p = "file.ts".data then Except.ok "CONTENT".data
      else Except.error "missing".data }

/-- A one-message chat request body `{model, messages:[{role:'user',content}], stream:false}`. -/
def singleUserRequest (model prompt : Str) : ChatRequest :=
  { model := model, messages := [{ role := Role.user, content := prompt }], stream := false }

/-- The full-transcript chat request that `sendMessage` builds after
appending the (context-prefixed) user turn. -/
def transcriptRequest (st : SState) (contextMessage now : Str) : ChatRequest where
  model := st.model
  messages :=
    (st.messageHistory ++
      [({ role := Role.user, content := contextMessage, timestamp := now } :
        ChatMessage)]).map
      (fun m => ({ role := m.role, content := m.content } : WireMsg))
  stream := false

/-- Does `baseCmd` match some CommandSpec of the dispatcher (the exact
matches of the `switch`, then the prefix matches of its `default` arm, in
the source's order)? -/
def matchesSomeCommand (baseCmd : Str) : Bool :=
  baseCmd == "@help".data || baseCmd == "@list".data || baseCmd == "@clear".data ||
  baseCmd == "@info".data || baseCmd == "@workspace".data ||
  ("@model ".data).isPrefixOf baseCmd || ("@read ".data).isPrefixOf baseCmd ||
  ("@understand ".data).isPrefixOf baseCmd ||
  ("@analyze ".data).isPrefixOf baseCmd || ("@search ".data).isPrefixOf baseCmd ||
  ("@edit ".data).isPrefixOf baseCmd || ("@explain ".data).isPrefixOf baseCmd ||
  ("@refactor ".data).isPrefixOf baseCmd || ("@deps ".data).isPrefixOf baseCmd

/-- The states an `OllamaService` instance can reach: its constructor,
followed by any sequence of its mutating public operations. -/
inductive Reachable : SState → Prop where
  | init (apiUrl model : Str) : Reachable (initState apiUrl model)
  | send (msg : Str) (env : Env) {s : SState} :
      Reachable s → Reachable (sendMessage msg s env).2.1
  | handle (cmd : Str) (env : Env) {s : SState} :
      Reachable s → Reachable (handleCommand cmd s env).state
  | setModelStep (m : Str) {s : SState} :
      Reachable s → Reachable { s with model := m }
  | clearHistoryStep {s : SState} :
      Reachable s → Reachable { s with messageHistory := [] }
  | addToHistoryStep (m : ChatMessage) {s : SState} :
      Reachable s → Reachable { s with messageHistory := s.messageHistory ++ [m] }

/-! ## Lemmas about the string primitives -/

theorem includesStr_iff {n h : Str} : includesStr n h = true ↔ n <:+: h := by
  induction h with
  | nil =>
    simp [includesStr, List.isPrefixOf_iff_prefix]
  | cons c t ih =>
    simp [includesStr, List.isPrefixOf_iff_prefix, ih, List.infix_cons_iff]

theorem foldl_count (p : Str → Bool) (ls : List Str) (n : Nat) :
    ls.foldl (fun acc l => if p l then acc + 1 else acc) n = n + ls.countP p := by
  induction ls generalizing n with
  | nil => simp
  | cons x t ih =>
    by_cases hx : p x = true <;>
      simp [List.countP_cons, hx, ih] <;> omega

theorem mem_foldl_append {α β : Type} (f : β → List α) (l : List β) (init : List α)
    (a : α) :
    a ∈ l.foldl (fun acc b => acc ++ f b) init ↔ a ∈ init ∨ ∃ b, b ∈ l ∧ a ∈ f b := by
  induction l generalizing init with
  | nil => simp
  | cons x t ih =>
    simp only [List.foldl_cons, ih, List.mem_append]
    constructor
    · rintro ((h | h) | ⟨b, hb, hfb⟩)
      · exact Or.inl h
      · exact Or.inr ⟨x, List.mem_cons_self x t, h⟩
      · exact Or.inr ⟨b, List.mem_cons_of_mem x hb, hfb⟩
    · rintro (h | ⟨b, hb, hfb⟩)
      · exact Or.inl (Or.inl h)
      · rcases List.mem_cons.mp hb with rfl | hb
        · exact Or.inl (Or.inr hfb)
        · exact Or.inr ⟨b, hb, hfb⟩

theorem foldl_append_init {α β : Type} (f : β → List α) (l : List β) (init : List α) :
    l.foldl (fun acc b => acc ++ f b) init =
      init ++ l.foldl (fun acc b => acc ++ f b) [] := by
  induction l generalizing init with
  | nil => simp
  | cons x t ih =>
    simp only [List.foldl_cons, List.nil_append]
    rw [ih, ih (f x), List.append_assoc]

theorem foldl_pushIf {α : Type} (p : α → Bool) (l acc : List α) :
    l.foldl (fun acc x => if p x then acc ++ [x] else acc) acc = acc ++ l.filter p := by
  induction l generalizing acc with
  | nil => simp
  | cons x t ih =>
    by_cases hx : p x = true <;> simp [List.filter_cons, hx, ih, List.append_assoc]

theorem splitOnChar_spec (c : Char) (s : Str) :
    splitOnChar c s ≠ [] ∧
    (splitOnChar c s).headD [] = s.takeWhile (fun x => x != c) ∧
    ∀ p ∈ splitOnChar c s, p <:+: s := by
  induction s with
  | nil =>
    refine ⟨by simp [splitOnChar], by simp [splitOnChar], ?_⟩
    intro p hp
    simp [splitOnChar] at hp
    simp [hp]
  | cons x xs ih =>
    by_cases hx : x = c
    · subst hx
      have hsplit : splitOnChar x (x :: xs) = [] :: splitOnChar x xs := by
        simp [splitOnChar]
      refine ⟨by simp [hsplit], by simp [hsplit], ?_⟩
      intro p hp
      rw [hsplit] at hp
      rcases List.mem_cons.mp hp with rfl | hp
      · exact List.nil_infix
      · exact List.infix_cons_iff.mpr (Or.inr (ih.2.2 p hp))
    · obtain ⟨y, ys, hyys⟩ := List.exists_cons_of_ne_nil ih.1
      have hhead : y = xs.takeWhile (fun a => a != c) := by
        have := ih.2.1
        rw [hyys] at this
        simpa using this
      have hsplit : splitOnChar c (x :: xs) = (x :: y) :: ys := by
        simp only [splitOnChar, if_neg hx, hyys]
      refine ⟨by simp [hsplit], ?_, ?_⟩
      · rw [hsplit]
        have hxc : (x != c) = true := bne_iff_ne.mpr hx
        simp [List.takeWhile_cons, hxc, hhead]
      · intro p hp
        rw [hsplit] at hp
        rcases List.mem_cons.mp hp with rfl | hp
        · refine List.IsPrefix.isInfix ?_
          obtain ⟨t, ht⟩ := List.takeWhile_prefix (l := xs) (fun a => a != c)
          refine ⟨t, ?_⟩
          rw [hhead, List.cons_append, ht]
        · refine List.infix_cons_iff.mpr (Or.inr (ih.2.2 p ?_))
          rw [hyys]
          exact List.mem_cons_of_mem y hp

theorem trimJS_prefix_dropWhile (s : Str) : trimJS s <+: s.dropWhile isWS := by
  unfold trimJS
  have h := List.dropWhile_suffix (l := (s.dropWhile isWS).reverse) isWS
  have := List.reverse_prefix.mpr h
  simpa using this

theorem trimJS_isInfix (s : Str) : trimJS s <:+: s :=
  (trimJS_prefix_dropWhile s).isInfix.trans (List.dropWhile_suffix isWS).isInfix

theorem exists_trim_decomp (l : Str) :
    ∃ pre post, l = pre ++ trimJS l ++ post ∧ (∀ c ∈ pre, isWS c = true) ∧
      ∀ c ∈ post, isWS c = true := by
  refine ⟨l.takeWhile isWS, ((l.dropWhile isWS).reverse.takeWhile isWS).reverse,
    ?_, ?_, ?_⟩
  · conv_lhs => rw [← List.takeWhile_append_dropWhile isWS l]
    rw [List.append_assoc]
    congr 1
    conv_lhs => rw [← List.reverse_reverse (l.dropWhile isWS),
      ← List.takeWhile_append_dropWhile isWS (l.dropWhile isWS).reverse]
    rw [List.reverse_append]
    rfl
  · intro c hc
    exact List.mem_takeWhile_imp hc
  · intro c hc
    rw [List.mem_reverse] at hc
    exact List.mem_takeWhile_imp hc

theorem ws_not_word {c : Char} (h : isWS c = true) : isWordChar c = false := by
  simp only [isWS, Bool.or_eq_true, decide_eq_true_eq] at h
  rcases h with ((((rfl | rfl) | rfl) | rfl) | rfl) | rfl <;> rfl

theorem firstWord_ws_append {pre rest : Str} (h : ∀ c ∈ pre, isWS c = true) :
    firstWord (pre ++ rest) = firstWord rest := by
  induction pre with
  | nil => rfl
  | cons c t ih =>
    rw [List.cons_append]
    have hcw : isWordChar c = false := ws_not_word (h c (List.mem_cons_self c t))
    simp only [firstWord, hcw, Bool.false_eq_true, if_false]
    exact ih fun d hd => h d (List.mem_cons_of_mem c hd)

theorem takeWhile_word_append {w rest : Str} (hw : ∀ c ∈ w, isWordChar c = true) :
    (w ++ rest).takeWhile isWordChar = w ++ rest.takeWhile isWordChar := by
  induction w with
  | nil => rfl
  | cons c t ih =>
    rw [List.cons_append, List.takeWhile_cons,
      if_pos (hw c (List.mem_cons_self c t)), List.cons_append,
      ih fun d hd => hw d (List.mem_cons_of_mem c hd)]

theorem firstWord_word_run {w rest : Str} (hne : w ≠ [])
    (hw : ∀ c ∈ w, isWordChar c = true) (hr : headIsWord rest = false) :
    firstWord (w ++ rest) = some w := by
  obtain ⟨c, t, rfl⟩ := List.exists_cons_of_ne_nil hne
  have htr : rest.takeWhile isWordChar = [] := by
    cases rest with
    | nil => rfl
    | cons d r =>
      simp only [headIsWord] at hr
      simp [List.takeWhile_cons, hr]
  rw [List.cons_append]
  simp only [firstWord, hw c (List.mem_cons_self c t), if_true,
    takeWhile_word_append (fun d hd => hw d (List.mem_cons_of_mem c hd)), htr,
    List.append_nil]

theorem afterLit_some {lit s r : Str} (h : afterLit lit s = some r) :
    s = lit ++ r := by
  unfold afterLit at h
  split at h
  · rename_i hpre
    obtain ⟨t, ht⟩ := List.isPrefixOf_iff_prefix.mp hpre
    cases h
    rw [← ht, List.drop_left]
  · cases h

theorem afterWS1_some {s r : Str} (h : afterWS1 s = some r) :
    ∃ pre, s = pre ++ r ∧ pre ≠ [] ∧ ∀ c ∈ pre, isWS c = true := by
  cases s with
  | nil => simp [afterWS1] at h
  | cons c rest =>
    by_cases hws : isWS c = true
    · simp only [afterWS1, hws, if_true, Option.some.injEq] at h
      subst h
      refine ⟨c :: rest.takeWhile isWS, ?_, by simp, ?_⟩
      · rw [List.cons_append, List.takeWhile_append_dropWhile]
      · intro d hd
        rcases List.mem_cons.mp hd with rfl | hd
        · exact hws
        · exact List.mem_takeWhile_imp hd
    · simp [afterWS1, hws] at h

theorem startsFuncKw_decomp {t : Str} (h : startsFuncKw t = true) :
    ∃ c r, t = "function".data ++ c :: r ∧ isWS c = true := by
  unfold startsFuncKw at h
  cases hal : afterLit "function".data t with
  | none => rw [hal] at h; cases h
  | some r =>
    simp only [hal] at h
    cases haw : afterWS1 r with
    | none => simp [haw] at h
    | some r2 =>
      obtain ⟨pre, hpre, hne, hws⟩ := afterWS1_some haw
      obtain ⟨c, prest, rfl⟩ := List.exists_cons_of_ne_nil hne
      exact ⟨c, prest ++ r2, by rw [afterLit_some hal, hpre]; simp,
        hws c (List.mem_cons_self c prest)⟩

theorem startsAsyncFuncKw_decomp {t : Str} (h : startsAsyncFuncKw t = true) :
    ∃ c r, t = "async".data ++ c :: r ∧ isWS c = true := by
  unfold startsAsyncFuncKw at h
  cases hal : afterLit "async".data t with
  | none => rw [hal] at h; cases h
  | some r =>
    simp only [hal] at h
    cases haw : afterWS1 r with
    | none => simp [haw] at h
    | some r2 =>
      obtain ⟨pre, hpre, hne, hws⟩ := afterWS1_some haw
      obtain ⟨c, prest, rfl⟩ := List.exists_cons_of_ne_nil hne
      exact ⟨c, prest ++ r2, by rw [afterLit_some hal, hpre]; simp,
        hws c (List.mem_cons_self c prest)⟩

theorem startsClassKw_decomp {t : Str} (h : startsClassKw t = true) :
    ∃ c r, t = "class".data ++ c :: r ∧ isWS c = true := by
  unfold startsClassKw at h
  cases hal : afterLit "class".data t with
  | none => rw [hal] at h; cases h
  | some r =>
    simp only [hal] at h
    cases haw : afterWS1 r with
    | none => simp [haw] at h
    | some r2 =>
      obtain ⟨pre, hpre, hne, hws⟩ := afterWS1_some haw
      obtain ⟨c, prest, rfl⟩ := List.exists_cons_of_ne_nil hne
      exact ⟨c, prest ++ r2, by rw [afterLit_some hal, hpre]; simp,
        hws c (List.mem_cons_self c prest)⟩

/-- `nameOfLine` on a line whose trimmed form starts a keyword followed by
whitespace: the first word of the whole line is that keyword. -/
theorem nameOfLine_of_kw {l kw : Str} (hkw : kw ≠ [])
    (hkww : ∀ c ∈ kw, isWordChar c = true)
    (hdec : ∃ c r, trimJS l = kw ++ c :: r ∧ isWS c = true) :
    nameOfLine l = kw := by
  obtain ⟨c, r, htrim, hc⟩ := hdec
  obtain ⟨pre, post, hl, hpre, _⟩ := exists_trim_decomp l
  have : firstWord l = some kw := by
    conv_lhs => rw [hl]
    rw [List.append_assoc, firstWord_ws_append hpre, htrim, List.append_assoc,
      List.cons_append]
    exact firstWord_word_run hkw hkww (by
      simp only [headIsWord]
      exact ws_not_word hc)
  simp [nameOfLine, this]

theorem nameOfLine_function {l : Str} (h : startsFuncKw (trimJS l) = true) :
    nameOfLine l = "function".data :=
  nameOfLine_of_kw (by decide) (by decide) (startsFuncKw_decomp h)

theorem nameOfLine_async {l : Str} (h : startsAsyncFuncKw (trimJS l) = true) :
    nameOfLine l = "async".data :=
  nameOfLine_of_kw (by decide) (by decide) (startsAsyncFuncKw_decomp h)

theorem nameOfLine_class {l : Str} (h : startsClassKw (trimJS l) = true) :
    nameOfLine l = "class".data :=
  nameOfLine_of_kw (by decide) (by decide) (startsClassKw_decomp h)

theorem firstWord_some_of_trim_head_word {l : Str} {c₀ : Char} {rest : Str}
    (ht : trimJS l = c₀ :: rest) (hw : isWordChar c₀ = true) :
    firstWord l ≠ none := by
  obtain ⟨pre, post, hl, hpre, _⟩ := exists_trim_decomp l
  rw [hl, List.append_assoc, firstWord_ws_append hpre, ht, List.cons_append]
  simp [firstWord, hw]

theorem isFuncStart_trim_head_word {t : Str} (h : isFuncStart t = true) :
    ∃ c₀ rest, t = c₀ :: rest ∧ isWordChar c₀ = true := by
  simp only [isFuncStart, Bool.or_eq_true] at h
  rcases h with (h | h) | (h | h)
  · obtain ⟨c, r, ht, _⟩ := startsFuncKw_decomp h
    exact ⟨'f', "unction".data ++ c :: r, by rw [ht]; rfl, by decide⟩
  · obtain ⟨c, r, ht, _⟩ := startsAsyncFuncKw_decomp h
    exact ⟨'a', "sync".data ++ c :: r, by rw [ht]; rfl, by decide⟩
  · cases t with
    | nil => simp [startsAssignFunc] at h
    | cons c rest =>
      by_cases hc : isWordChar c = true
      · exact ⟨c, rest, rfl, hc⟩
      · exfalso
        simp [startsAssignFunc, List.takeWhile_cons, hc] at h
  · unfold startsAsyncAssignFunc at h
    cases hal : afterLit "async".data t with
    | none => simp [hal] at h
    | some r =>
      exact ⟨'a', "sync".data ++ r, by rw [afterLit_some hal]; rfl, by decide⟩

theorem firstWord_ne_none_of_funcStart {l : Str} (h : isFuncStart (trimJS l) = true) :
    firstWord l ≠ none := by
  obtain ⟨c₀, rest, ht, hw⟩ := isFuncStart_trim_head_word h
  exact firstWord_some_of_trim_head_word ht hw

theorem extractFunctionsLoop_names (A : List Str) :
    ∀ (ls : List Str) (cur : Option (FuncRec × List Str)) (acc : List FuncRec),
      (∀ l ∈ ls, l ∈ A) →
      (∀ r ∈ acc, ∃ l, l ∈ A ∧ isFuncStart (trimJS l) = true ∧
        r.name = nameOfLine l) →
      (∀ f fc, cur = some (f, fc) →
        ∃ l, l ∈ A ∧ isFuncStart (trimJS l) = true ∧ f.name = nameOfLine l) →
      ∀ r ∈ extractFunctionsLoop ls cur acc,
        ∃ l, l ∈ A ∧ isFuncStart (trimJS l) = true ∧ r.name = nameOfLine l := by
  intro ls
  induction ls with
  | nil =>
    intro cur acc _ hacc hcur r hr
    unfold extractFunctionsLoop at hr
    cases cur with
    | none =>
      simp only [List.append_nil] at hr
      exact hacc r hr
    | some p =>
      rcases p with ⟨f, fc⟩
      rcases List.mem_append.mp hr with hr | hr
      · exact hacc r hr
      · rw [List.mem_singleton.mp hr]
        exact hcur f fc rfl
  | cons line rest ih =>
    intro cur acc hls hacc hcur r hr
    unfold extractFunctionsLoop at hr
    by_cases hstart : isFuncStart (trimJS line) = true
    · rw [if_pos hstart] at hr
      refine ih _ _ (fun l hl => hls l (List.mem_cons_of_mem _ hl)) ?_ ?_ r hr
      · intro r' hr'
        cases cur with
        | none =>
          simp only [List.append_nil] at hr'
          exact hacc r' hr'
        | some p =>
          rcases p with ⟨f, fc⟩
          rcases List.mem_append.mp hr' with hr' | hr'
          · exact hacc r' hr'
          · rw [List.mem_singleton.mp hr']
            exact hcur f fc rfl
      · intro f fc hf
        cases hf
        exact ⟨line, hls line (List.mem_cons_self _ _), hstart, rfl⟩
    · rw [if_neg hstart] at hr
      cases cur with
      | none =>
        exact ih _ _ (fun l hl => hls l (List.mem_cons_of_mem _ hl)) hacc
          (fun f fc h => Option.noConfusion h) r hr
      | some p =>
        rcases p with ⟨f, fc⟩
        refine ih _ _ (fun l hl => hls l (List.mem_cons_of_mem _ hl)) hacc ?_ r hr
        intro f' fc' hf
        cases hf
        exact hcur f fc rfl

theorem extractClassesLoop_class :
    ∀ (ls : List Str) (cur : Option (ClassRec × List Str)) (acc : List ClassRec),
      (∀ r ∈ acc, r.name = "class".data) →
      (∀ f fc, cur = some (f, fc) → f.name = "class".data) →
      ∀ r ∈ extractClassesLoop ls cur acc, r.name = "class".data := by
  intro ls
  induction ls with
  | nil =>
    intro cur acc hacc hcur r hr
    unfold extractClassesLoop at hr
    cases cur with
    | none =>
      simp only [List.append_nil] at hr
      exact hacc r hr
    | some p =>
      rcases p with ⟨f, fc⟩
      rcases List.mem_append.mp hr with hr | hr
      · exact hacc r hr
      · rw [List.mem_singleton.mp hr]
        exact hcur f fc rfl
  | cons line rest ih =>
    intro cur acc hacc hcur r hr
    unfold extractClassesLoop at hr
    by_cases hstart : startsClassKw (trimJS line) = true
    · rw [if_pos hstart] at hr
      refine ih _ _ ?_ ?_ r hr
      · intro r' hr'
        cases cur with
        | none =>
          simp only [List.append_nil] at hr'
          exact hacc r' hr'
        | some p =>
          rcases p with ⟨f, fc⟩
          rcases List.mem_append.mp hr' with hr' | hr'
          · exact hacc r' hr'
          · rw [List.mem_singleton.mp hr']
            exact hcur f fc rfl
      · intro f fc hf
        cases hf
        exact nameOfLine_class hstart
    · rw [if_neg hstart] at hr
      cases cur with
      | none => exact ih _ _ hacc (fun f fc h => Option.noConfusion h) r hr
      | some p =>
        rcases p with ⟨f, fc⟩
        refine ih _ _ hacc ?_ r hr
        intro f' fc' hf
        cases hf
        exact hcur f fc rfl

/-- C10: every record of `extractFunctions` takes its name from the first
`\w+` token of the whole start line, so a `function NAME` line is recorded as
"function" and an `async function NAME` line as "async" (never the declared
identifier that follows the keyword); since every matching line starts with a
word character, the "anonymous" fallback (a `none` first word) never fires
for such lines; and every record of `extractClasses` is named "class". -/
theorem extract_names_C10 (content : Str) :
    (∀ r ∈ extractFunctions content,
      ∃ l, l ∈ splitOnChar '\n' content ∧ isFuncStart (trimJS l) = true ∧
        r.name = nameOfLine l) ∧
    (∀ l : Str, startsFuncKw (trimJS l) = true → nameOfLine l = "function".data) ∧
    (∀ l : Str, startsAsyncFuncKw (trimJS l) = true → nameOfLine l = "async".data) ∧
    (∀ l : Str, isFuncStart (trimJS l) = true → firstWord l ≠ none) ∧
    (∀ r ∈ extractClasses content, r.name = "class".data) := by
  refine ⟨?_, fun l h => nameOfLine_function h, fun l h => nameOfLine_async h,
    fun l h => firstWord_ne_none_of_funcStart h, ?_⟩
  · intro r hr
    exact extractFunctionsLoop_names (splitOnChar '\n' content) _ none []
      (fun l hl => hl) (fun r' hr' => absurd hr' (List.not_mem_nil r'))
      (fun f fc h => Option.noConfusion h) r hr
  · intro r hr
    exact extractClassesLoop_class _ none []
      (fun r' hr' => absurd hr' (List.not_mem_nil r'))
      (fun f fc h => Option.noConfusion h) r hr

/-- Witness for C10 at concrete inputs: a `function NAME` line is recorded
under the name "function", an `async function NAME` line under "async". -/
theorem extract_names_C10_witness :
    nameOfLine "function handleAll(x)".data = "function".data ∧
    nameOfLine "async function go()".data = "async".data ∧
    (extractClasses "class Foo \x7b\n\x7d".data).map (fun r => r.name) =
      ["class".data] := by
  refine ⟨(extract_names_C10 []).2.1 "function handleAll(x)".data (by decide),
    (extract_names_C10 []).2.2.1 "async function go()".data (by decide), by decide⟩

/-- C6: `calculateCodeComplexity` starts at 1 and adds exactly 1 per line
whose trimmed text contains one of the branching substrings, regardless of
how many of them the line contains; hence it is at most 1 + number of lines,
it is 1 on the empty string, and 3 on the two-line `if`/`else` text. -/
theorem calculateCodeComplexity_C6 :
    calculateCodeComplexity [] = 1 ∧
    calculateCodeComplexity "if (x) \x7b\x7d\nelse \x7b\x7d\n".data = 3 ∧
    calculateCodeComplexity "if (x) \x7b\x7d\nelse \x7b\x7d".data = 3 ∧
    ∀ content : Str,
      calculateCodeComplexity content =
        1 + (splitOnChar '\n' content).countP (fun line =>
          let trimmed := trimJS line
          includesStr "if".data trimmed || includesStr "else".data trimmed ||
          includesStr "for".data trimmed || includesStr "while".data trimmed ||
          includesStr "switch".data trimmed || includesStr "catch".data trimmed ||
          includesStr "&&".data trimmed || includesStr "||".data trimmed) ∧
      calculateCodeComplexity content ≤ 1 + (splitOnChar '\n' content).length := by
  refine ⟨by decide, by decide, by decide, fun content => ?_⟩
  have h1 : calculateCodeComplexity content =
      1 + (splitOnChar '\n' content).countP (fun line =>
        let trimmed := trimJS line
        includesStr "if".data trimmed || includesStr "else".data trimmed ||
        includesStr "for".data trimmed || includesStr "while".data trimmed ||
        includesStr "switch".data trimmed || includesStr "catch".data trimmed ||
        includesStr "&&".data trimmed || includesStr "||".data trimmed) :=
    foldl_count _ (splitOnChar '\n' content) 1
  refine ⟨h1, ?_⟩
  rw [h1]
  exact Nat.add_le_add_left (List.countP_le_length _) 1

theorem foldl_ext' {α β : Type} (f g : α → β → α) (l : List β) (init : α)
    (h : ∀ a b, b ∈ l → f a b = g a b) : l.foldl f init = l.foldl g init := by
  induction l generalizing init with
  | nil => rfl
  | cons x t ih =>
    simp only [List.foldl_cons]
    rw [h init x (List.mem_cons_self x t)]
    exact ih _ fun a b hb => h a b (List.mem_cons_of_mem x hb)

theorem mem_if_singleton {α : Type} {a x : α} {P : Prop} [Decidable P] :
    (a ∈ if P then [x] else []) ↔ P ∧ a = x := by
  split <;> simp_all

theorem findCodeDuplicates_mem (content : Str) (d : Dup) :
    d ∈ findCodeDuplicates content ↔
      ∃ i j, i + 5 ≤ j ∧ j < (splitOnChar '\n' content).length - 5 ∧
        i < (splitOnChar '\n' content).length - 5 ∧
        joinChar '\n' (((splitOnChar '\n' content).drop i).take 5) =
          joinChar '\n' (((splitOnChar '\n' content).drop j).take 5) ∧
        d = { startLine := i + 1, endLine := i + 5 } := by
  have hrepr : findCodeDuplicates content =
      (List.range ((splitOnChar '\n' content).length - 5)).foldl (fun dups i =>
        dups ++
          ((List.range ((splitOnChar '\n' content).length - 5)).filter
            (fun j => i + 5 ≤ j)).foldl (fun d2 j =>
              d2 ++ (if joinChar '\n' (((splitOnChar '\n' content).drop i).take 5) =
                  joinChar '\n' (((splitOnChar '\n' content).drop j).take 5)
                then [{ startLine := i + 1, endLine := i + 5 }] else [])) []) [] := by
    unfold findCodeDuplicates
    exact foldl_ext' _ _ _ _ fun dups i _ => foldl_append_init _ _ dups
  rw [hrepr, mem_foldl_append]
  simp only [List.not_mem_nil, false_or, List.mem_range, List.mem_filter]
  constructor
  · rintro ⟨i, hi, hd⟩
    rw [mem_foldl_append] at hd
    simp only [List.not_mem_nil, false_or, List.mem_filter, List.mem_range] at hd
    obtain ⟨j, ⟨hj, hij⟩, hdj⟩ := hd
    rw [mem_if_singleton] at hdj
    exact ⟨i, j, by simpa using hij, hj, hi, hdj.1, hdj.2⟩
  · rintro ⟨i, j, hij, hj, hi, heq, rfl⟩
    refine ⟨i, hi, ?_⟩
    rw [mem_foldl_append]
    simp only [List.not_mem_nil, false_or, List.mem_filter, List.mem_range]
    exact ⟨j, ⟨hj, by simpa using hij⟩, mem_if_singleton.mpr ⟨heq, rfl⟩⟩

theorem findUnusedImports_eq_filter (content : Str) (imports : List Str) :
    findUnusedImports content imports = imports.filter (fun imp =>
      match importNameOf imp with
      | some n => !includesStr n content
      | none => false) := by
  unfold findUnusedImports
  rw [foldl_ext' _ (fun acc x =>
    if (match importNameOf x with
        | some n => !includesStr n content
        | none => false) then acc ++ [x] else acc) _ _ ?_]
  · exact foldl_pushIf _ imports []
  · intro a b _
    cases hin : importNameOf b with
    | none => simp [hin]
    | some n =>
      by_cases hb : includesStr n content = true <;> simp [hin, hb]

theorem extractImports_mem {content imp : Str} (h : imp ∈ extractImports content) :
    ∃ l, l ∈ splitOnChar '\n' content ∧ imp = trimJS l := by
  unfold extractImports at h
  rw [foldl_ext' _ (fun acc line =>
    acc ++ (if ("import".data).isPrefixOf (trimJS line) then [trimJS line] else []))
    _ _ ?_] at h
  · rw [mem_foldl_append] at h
    rcases h with h | ⟨l, hl, hmem⟩
    · exact absurd h (List.not_mem_nil imp)
    · rw [mem_if_singleton] at hmem
      exact ⟨l, hl, hmem.2⟩
  · intro a b _
    by_cases hb : ("import".data).isPrefixOf (trimJS b) = true <;> simp [hb]

theorem fromCaptureAt_isInfix {s n : Str} (h : fromCaptureAt s = some n) :
    n <:+: s := by
  unfold fromCaptureAt at h
  cases hal : afterLit "from".data s with
  | none => simp [hal] at h
  | some r =>
    simp only [hal] at h
    cases haw : afterWS1 r with
    | none => simp [haw] at h
    | some r2 =>
      simp only [haw] at h
      cases r2 with
      | nil => simp at h
      | cons q r3 =>
        have hsub : n <:+: r3 := by
          by_cases hq : isQuoteCh q = true
          · simp only [hq, if_true] at h
            by_cases hb : r3.takeWhile (fun c => !isQuoteCh c) = []
            · rw [if_pos hb] at h
              cases h
            · rw [if_neg hb] at h
              cases hnext : r3.drop (r3.takeWhile (fun c => !isQuoteCh c)).length with
              | nil =>
                simp only [hnext] at h
                exact Option.noConfusion h
              | cons c rest =>
                simp only [hnext] at h
                by_cases hc : isQuoteCh c = true
                · rw [if_pos hc] at h
                  cases h
                  exact ( List.takeWhile_prefix _).isInfix
                · rw [if_neg hc] at h
                  cases h
          · simp only [hq, Bool.false_eq_true, if_false] at h
            exact Option.noConfusion h
        obtain ⟨pre, hpre, _, _⟩ := afterWS1_some haw
        have h3 : r3 <:+ q :: r3 := List.suffix_cons q r3
        have h2 : (q :: r3) <:+ r := ⟨pre, hpre.symm⟩
        have h1 : r <:+ s := by
          rw [afterLit_some hal]
          exact List.suffix_append _ _
        exact hsub.trans (h3.isInfix.trans (h2.isInfix.trans h1.isInfix))

theorem fromCapture_isInfix {s n : Str} (h : fromCapture s = some n) : n <:+: s := by
  induction s with
  | nil => cases h
  | cons c cs ih =>
    unfold fromCapture at h
    cases hat : fromCaptureAt (c :: cs) with
    | some w =>
      simp only [hat, Option.some.injEq] at h
      rw [← h]
      exact fromCaptureAt_isInfix hat
    | none =>
      simp only [hat] at h
      exact List.infix_cons_iff.mpr (Or.inr (ih h))

theorem importCaptureAt_isInfix {s n : Str} (h : importCaptureAt s = some n) :
    n <:+: s := by
  unfold importCaptureAt at h
  cases hal : afterLit "import".data s with
  | none => simp [hal] at h
  | some r =>
    simp only [hal] at h
    cases haw : afterWS1 r with
    | none => simp [haw] at h
    | some r2 =>
      simp only [haw] at h
      by_cases hw : r2.takeWhile isWordChar = []
      · rw [if_pos hw] at h
        cases h
      · rw [if_neg hw] at h
        cases h
        obtain ⟨pre, hpre, _, _⟩ := afterWS1_some haw
        have h2 : r2 <:+ r := ⟨pre, hpre.symm⟩
        have h1 : r <:+ s := by
          rw [afterLit_some hal]
          exact List.suffix_append _ _
        exact ( List.takeWhile_prefix _).isInfix.trans (h2.isInfix.trans h1.isInfix)

theorem importCapture_isInfix {s n : Str} (h : importCapture s = some n) : n <:+: s := by
  induction s with
  | nil => cases h
  | cons c cs ih =>
    unfold importCapture at h
    cases hat : importCaptureAt (c :: cs) with
    | some w =>
      simp only [hat, Option.some.injEq] at h
      rw [← h]
      exact importCaptureAt_isInfix hat
    | none =>
      simp only [hat] at h
      exact List.infix_cons_iff.mpr (Or.inr (ih h))

theorem importNameOf_isInfix {imp n : Str} (h : importNameOf imp = some n) :
    n <:+: imp := by
  unfold importNameOf at h
  cases hf : fromCapture imp with
  | some w =>
    simp only [hf, Option.some.injEq] at h
    rw [← h]
    exact fromCapture_isInfix hf
  | none =>
    simp only [hf] at h
    exact importCapture_isInfix h

theorem findUnusedImports_self_empty (content : Str) :
    findUnusedImports content (extractImports content) = [] := by
  rw [findUnusedImports_eq_filter, List.filter_eq_nil_iff]
  intro imp hmem
  obtain ⟨l, hl, himp⟩ := extractImports_mem hmem
  cases hin : importNameOf imp with
  | none => simp [hin]
  | some n =>
    have h1 : n <:+: imp := importNameOf_isInfix hin
    have h2 : imp <:+: content := by
      rw [himp]
      exact (trimJS_isInfix l).trans ((splitOnChar_spec '\n' content).2.2 l hl)
    have h3 : includesStr n content = true := includesStr_iff.mpr (h1.trans h2)
    simp [hin, h3]

/-- C5 counterexample: a text of exactly 10 split lines whose lines 1–5 are
verbatim equal to lines 6–10, on which `findCodeDuplicates` returns no
window at all (the claim demands exactly `{startLine := 1, endLine := 5}`):
the inner loop bound `j < lines.length - windowSize` never reaches the
final window. -/
theorem findCodeDuplicates_C5_counterexample :
    (splitOnChar '\n' "a\nb\nc\nd\ne\na\nb\nc\nd\ne".data).length = 10 ∧
    (splitOnChar '\n' "a\nb\nc\nd\ne\na\nb\nc\nd\ne".data).take 5 =
      (splitOnChar '\n' "a\nb\nc\nd\ne\na\nb\nc\nd\ne".data).drop 5 ∧
    findCodeDuplicates "a\nb\nc\nd\ne\na\nb\nc\nd\ne".data = [] := by decide

/-- C5 amended: `findCodeDuplicates` records the earlier window's bounds
exactly for those pairs of equal 5-line windows whose positions `i < j`
*both lie strictly below `lineCount - 5`* (so pairs whose later window is
one of the last windows are missed); on the 10-line file *with a trailing
newline* (11 split lines) where lines 1–5 equal lines 6–10 it does return
exactly the single window `{startLine := 1, endLine := 5}`. -/
theorem findCodeDuplicates_C5_amended :
    findCodeDuplicates "a\nb\nc\nd\ne\na\nb\nc\nd\ne\n".data =
      [{ startLine := 1, endLine := 5 }] ∧
    ∀ (content : Str) (d : Dup),
      d ∈ findCodeDuplicates content ↔
        ∃ i j, i + 5 ≤ j ∧ j < (splitOnChar '\n' content).length - 5 ∧
          i < (splitOnChar '\n' content).length - 5 ∧
          joinChar '\n' (((splitOnChar '\n' content).drop i).take 5) =
            joinChar '\n' (((splitOnChar '\n' content).drop j).take 5) ∧
          d = { startLine := i + 1, endLine := i + 5 } := by
  exact ⟨by decide, findCodeDuplicates_mem⟩

/-- C8 counterexample: in `"import foo\nbar()"` the resolved name `foo` of
the import line occurs nowhere outside that import line, yet
`findUnusedImports` does not return it (it searches the whole text,
including the import line itself, which always contains the name). -/
theorem findUnusedImports_C8_counterexample :
    splitOnChar '\n' "import foo\nbar()".data =
      ["import foo".data, "bar()".data] ∧
    importNameOf "import foo".data = some "foo".data ∧
    includesStr "foo".data "bar()".data = false ∧
    findUnusedImports "import foo\nbar()".data ["import foo".data] = [] := by
  decide

/-- C8 amended: `findUnusedImports` returns exactly the import lines that
resolve to a name (via the `from '...'` capture or the `import NAME`
capture) whose name does not occur anywhere in the *whole* text — including
inside the import line itself.  Consequently, on imports extracted from the
same text it always returns the empty list. -/
theorem findUnusedImports_C8_amended :
    (∀ (content : Str) (imports : List Str),
      findUnusedImports content imports = imports.filter (fun imp =>
        match importNameOf imp with
        | some n => !includesStr n content
        | none => false)) ∧
    ∀ content : Str, findUnusedImports content (extractImports content) = [] :=
  ⟨findUnusedImports_eq_filter, findUnusedImports_self_empty⟩

/-- Helper: `@clear` empties the history, confirms, and makes no remote call. -/
theorem handleCommand_clear (st : SState) (env : Env) :
    handleCommand "@clear".data st env =
      { result := "Chat history cleared".data,
        state := { st with messageHistory := [] }, calls := [] } := by
  simp +decide [handleCommand, handleCommandCore, baseCmdOf, queryOf]

/-- Helper: `@info` reports the current model, records only its own user
turn, and makes no remote call. -/
theorem handleCommand_info (st : SState) (env : Env) :
    handleCommand "@info".data st env =
      { result := "Current model: ".data ++ st.model,
        state := { st with messageHistory := st.messageHistory ++
          [{ role := Role.user, content := "@info".data, timestamp := env.now }] },
        calls := [] } := by
  simp +decide [handleCommand, handleCommandCore, baseCmdOf, queryOf]

/-- C7 amended: `@clear` empties `messageHistory`, replies
"Chat history cleared", makes no remote call and keeps the model; a
subsequent `@info` replies "Current model: " followed by the model, makes
no remote call, keeps the model — but its transcript has length 1 (the
`@info` user turn itself, which `handleCommand` records before
dispatching), not 0 as the claim states. -/
theorem clear_then_info_C7_amended (st : SState) (env env2 : Env) :
    (handleCommand "@clear".data st env).result = "Chat history cleared".data ∧
    (handleCommand "@clear".data st env).calls = [] ∧
    (handleCommand "@clear".data st env).state.messageHistory = [] ∧
    (handleCommand "@clear".data st env).state.model = st.model ∧
    (handleCommand "@info".data (handleCommand "@clear".data st env).state env2).result
      = "Current model: ".data ++ st.model ∧
    (handleCommand "@info".data (handleCommand "@clear".data st env).state env2).calls
      = [] ∧
    (handleCommand "@info".data
        (handleCommand "@clear".data st env).state env2).state.model = st.model ∧
    (handleCommand "@info".data
        (handleCommand "@clear".data st env).state env2).state.messageHistory.length
      = 1 := by
  rw [handleCommand_clear st env]
  rw [handleCommand_info]
  simp

/-- C7 counterexample: after `@clear` then `@info` from the demo state the
transcript length is not 0 — the `@info` turn itself was recorded. -/
theorem clear_then_info_C7_counterexample :
    (handleCommand "@info".data
        (handleCommand "@clear".data demoState echoEnv).state
        echoEnv).state.messageHistory.length ≠ 0 := by decide

/-- C3 amended: with no workspace folder open, `@workspace: query` does
NOT short-circuit with "No workspace folder is open."; instead
`scanWorkspace` returns that sentence as the workspace context, it is
embedded into the prompt, exactly one remote chat request is still made,
and the result is the model reply (or the wrapped error). -/
theorem workspace_noworkspace_C3_amended (c : Str) (st : SState) (env : Env)
    (hopen : env.workspaceOpen = false)
    (hbase : baseCmdOf c = "@workspace".data)
    (hq : queryOf c ≠ []) :
    (handleCommand c st env).calls =
      [RemoteCall.chatReq (singleUserRequest st.model
        ("Workspace Context:\n".data ++ "No workspace folder is open.".data ++
          "\n\nUser Query: ".data ++ queryOf c))] ∧
    (handleCommand c st env).result =
      (match env.chat (singleUserRequest st.model
          ("Workspace Context:\n".data ++ "No workspace folder is open.".data ++
            "\n\nUser Query: ".data ++ queryOf c)) with
       | Except.ok reply => reply
       | Except.error e => "Error executing command: ".data ++ e) := by
  have hscan : scanWorkspace env = "No workspace folder is open.".data := by
    simp [scanWorkspace, hopen]
  have hcore : handleCommandCore c st env =
      (env.chat (singleUserRequest st.model
        ("Workspace Context:\n".data ++ "No workspace folder is open.".data ++
          "\n\nUser Query: ".data ++ queryOf c)),
       { st with messageHistory := st.messageHistory ++
         [{ role := Role.user, content := c, timestamp := env.now }] },
       [RemoteCall.chatReq (singleUserRequest st.model
        ("Workspace Context:\n".data ++ "No workspace folder is open.".data ++
          "\n\nUser Query: ".data ++ queryOf c))]) := by
    simp +decide [handleCommandCore, hbase, hq, hscan, singleUserRequest]
  unfold handleCommand
  rw [hcore]
  cases env.chat (singleUserRequest st.model
      ("Workspace Context:\n".data ++ "No workspace folder is open.".data ++
        "\n\nUser Query: ".data ++ queryOf c)) <;> simp

/-- Witness for C3 at a concrete command, state and environment: the
hypotheses (closed workspace, `@workspace` base command, nonempty query)
hold and exactly one remote call is made. -/
theorem workspace_noworkspace_C3_witness :
    (handleCommand "@workspace: list the top-level folders".data demoState
        echoEnv).calls.length = 1 := by
  have h := workspace_noworkspace_C3_amended
    "@workspace: list the top-level folders".data demoState echoEnv
    (by decide) (by decide) (by decide)
  rw [h.1]
  rfl

/-- C3 counterexample: against the closed-workspace echo environment the
result of `@workspace: list the top-level folders` is not the bare
message "No workspace folder is open." that the claim promises; one
remote call is made and the echoed prompt shows the message embedded in
the workspace-context section. -/
theorem workspace_noworkspace_C3_counterexample :
    (handleCommand "@workspace: list the top-level folders".data demoState
        echoEnv).result ≠ "No workspace folder is open.".data ∧
    (handleCommand "@workspace: list the top-level folders".data demoState
        echoEnv).calls.length = 1 ∧
    (handleCommand "@workspace: list the top-level folders".data demoState
        echoEnv).result =
      "Workspace Context:\nNo workspace folder is open.\n\nUser Query: list the top-level folders".data := by
  decide

/-- C1: `handleCommand` is total over its command alphabet — if the base
command matches none of the dispatcher entries the result is the
"Unknown command" message, which mentions the unrecognized base command
and suggests `@help`; and whenever the dispatch core raises an error `e`
the result is "Error executing command: " followed by `e`. -/
theorem handleCommand_total_C1 (command : Str) (st : SState) (env : Env) :
    (matchesSomeCommand (baseCmdOf command) = false →
      (handleCommand command st env).result =
        "Unknown command: ".data ++ baseCmdOf command ++
          "\nType @help to see available commands".data ∧
      includesStr (baseCmdOf command) (handleCommand command st env).result = true ∧
      includesStr "@help".data (handleCommand command st env).result = true) ∧
    ∀ e, (handleCommandCore command st env).1 = Except.error e →
      (handleCommand command st env).result = "Error executing command: ".data ++ e := by
  constructor
  · intro h
    simp only [matchesSomeCommand, Bool.or_eq_false_iff, beq_eq_false_iff_ne] at h
    obtain ⟨⟨⟨⟨⟨⟨⟨⟨⟨⟨⟨⟨⟨h1, h2⟩, h3⟩, h4⟩, h5⟩, h6⟩, h7⟩, h8⟩, h9⟩, h10⟩,
      h11⟩, h12⟩, h13⟩, h14⟩ := h
    have hres : (handleCommand command st env).result =
        "Unknown command: ".data ++ baseCmdOf command ++
          "\nType @help to see available commands".data := by
      simp [handleCommand, handleCommandCore, h1, h2, h3, h4, h5, h6, h7, h8, h9,
        h10, h11, h12, h13, h14]
    refine ⟨hres, ?_, ?_⟩
    · rw [hres]
      exact includesStr_iff.mpr ⟨"Unknown command: ".data,
        "\nType @help to see available commands".data, rfl⟩
    · rw [hres]
      refine includesStr_iff.mpr ⟨"Unknown command: ".data ++ baseCmdOf command ++
        "\nType ".data, " to see available commands".data, ?_⟩
      simp only [List.append_assoc]
      exact congrArg (fun z => "Unknown command: ".data ++ (baseCmdOf command ++ z))
        (by decide)
  · intro e he
    unfold handleCommand
    rcases hc : handleCommandCore command st env with ⟨r, s2, calls⟩
    rw [hc] at he
    simp only at he
    subst he
    rfl

/-- Witness for C1 at a concrete unknown command and a concrete failing
environment (`@tags` fetch fails in `failTagsEnv`). -/
theorem handleCommand_total_C1_witness :
    (handleCommand "@frobnicate".data demoState echoEnv).result =
      "Unknown command: @frobnicate\nType @help to see available commands".data ∧
    (handleCommand "@list".data demoState failTagsEnv).result =
      "Error executing command: boom".data := by
  constructor
  · have h := ((handleCommand_total_C1 "@frobnicate".data demoState echoEnv).1
      (by decide)).1
    rw [h]
    decide
  · exact (handleCommand_total_C1 "@list".data demoState failTagsEnv).2
      "boom".data (by rfl)

/-- Helper: the remote calls of `sendMessage` are none for the bare "@"
trigger and exactly the one full-transcript chat request otherwise. -/
theorem sendMessage_calls (message : Str) (st : SState) (env : Env) :
    (sendMessage message st env).2.2 =
      if trimJS message = "@".data then []
      else [RemoteCall.chatReq
        (transcriptRequest st (contextMessageOf st message) env.now)] := by
  unfold sendMessage
  by_cases ht : trimJS message = "@".data
  · simp [ht]
  · simp only [if_neg ht]
    split <;> rfl

/-- Helper: `handleCommand` forwards the remote-call trace of the core. -/
theorem handleCommand_calls_eq (c : Str) (st : SState) (env : Env) :
    (handleCommand c st env).calls = (handleCommandCore c st env).2.2 := by
  unfold handleCommand
  split <;> rename_i heq <;> rw [heq]

/-- Helper: every chat request the dispatch core emits carries exactly one
user message, and only the `@workspace`, `@read` and `@understand`
branches emit one. -/
theorem handleCommandCore_calls_shape (c : Str) (st : SState) (env : Env) :
    ∀ req : ChatRequest, RemoteCall.chatReq req ∈ (handleCommandCore c st env).2.2 →
      (req.messages.length = 1 ∧
        (req.messages.headD { role := Role.user, content := [] }).role = Role.user) ∧
      (baseCmdOf c = "@workspace".data ∨
       ("@read ".data).isPrefixOf (baseCmdOf c) = true ∨
       ("@understand ".data).isPrefixOf (baseCmdOf c) = true) := by
  intro req hreq
  unfold handleCommandCore at hreq
  dsimp only at hreq
  by_cases h1 : baseCmdOf c = "@help".data
  · rw [if_pos h1] at hreq
    simp at hreq
  rw [if_neg h1] at hreq
  by_cases h2 : baseCmdOf c = "@list".data
  · rw [if_pos h2] at hreq
    cases henv : env.tags <;> simp only [henv] at hreq <;> simp at hreq
  rw [if_neg h2] at hreq
  by_cases h3 : baseCmdOf c = "@clear".data
  · rw [if_pos h3] at hreq
    simp at hreq
  rw [if_neg h3] at hreq
  by_cases h4 : baseCmdOf c = "@info".data
  · rw [if_pos h4] at hreq
    simp at hreq
  rw [if_neg h4] at hreq
  by_cases h5 : baseCmdOf c = "@workspace".data
  · rw [if_pos h5] at hreq
    by_cases hq : queryOf c = []
    · rw [if_pos hq] at hreq
      simp at hreq
    · rw [if_neg hq] at hreq
      simp only [List.mem_singleton, RemoteCall.chatReq.injEq] at hreq
      subst hreq
      exact ⟨⟨rfl, rfl⟩, Or.inl h5⟩
  rw [if_neg h5] at hreq
  by_cases h6 : ("@model ".data).isPrefixOf (baseCmdOf c) = true
  · rw [if_pos h6] at hreq
    cases henv : env.tags with
    | ok models =>
      simp only [henv] at hreq
      by_cases hany : (models.any fun m =>
          m.name == trimJS (List.drop 7 (baseCmdOf c))) = true
      · rw [if_pos hany] at hreq
        simp at hreq
      · rw [if_neg hany] at hreq
        simp at hreq
    | error e =>
      simp only [henv] at hreq
      simp at hreq
  rw [if_neg h6] at hreq
  by_cases h7 : ("@read ".data).isPrefixOf (baseCmdOf c) = true
  · rw [if_pos h7] at hreq
    by_cases hq : queryOf c = []
    · rw [if_pos hq] at hreq
      simp at hreq
    · rw [if_neg hq] at hreq
      cases hrf : readFile (trimJS (List.drop 6 (baseCmdOf c))) env with
      | error e =>
        simp only [hrf] at hreq
        simp at hreq
      | ok fileContent =>
        simp only [hrf] at hreq
        simp only [List.mem_singleton, RemoteCall.chatReq.injEq] at hreq
        subst hreq
        exact ⟨⟨rfl, rfl⟩, Or.inr (Or.inl h7)⟩
  rw [if_neg h7] at hreq
  by_cases h8 : ("@understand ".data).isPrefixOf (baseCmdOf c) = true
  · rw [if_pos h8] at hreq
    cases hrf : readFile (trimJS (List.drop 12 (baseCmdOf c))) env with
    | error e =>
      simp only [hrf] at hreq
      simp at hreq
    | ok fileContent =>
      simp only [hrf] at hreq
      simp only [List.mem_singleton, RemoteCall.chatReq.injEq] at hreq
      subst hreq
      exact ⟨⟨rfl, rfl⟩, Or.inr (Or.inr h8)⟩
  rw [if_neg h8] at hreq
  by_cases h9 : ("@analyze ".data).isPrefixOf (baseCmdOf c) = true
  · rw [if_pos h9] at hreq
    simp at hreq
  rw [if_neg h9] at hreq
  by_cases h10 : ("@search ".data).isPrefixOf (baseCmdOf c) = true
  · rw [if_pos h10] at hreq
    simp at hreq
  rw [if_neg h10] at hreq
  by_cases h11 : ("@edit ".data).isPrefixOf (baseCmdOf c) = true
  · rw [if_pos h11] at hreq
    cases hec : editCapture (baseCmdOf c) <;> simp only [hec] at hreq <;>
      simp at hreq
  rw [if_neg h11] at hreq
  by_cases h12 : ("@explain ".data).isPrefixOf (baseCmdOf c) = true
  · rw [if_pos h12] at hreq
    simp at hreq
  rw [if_neg h12] at hreq
  by_cases h13 : ("@refactor ".data).isPrefixOf (baseCmdOf c) = true
  · rw [if_pos h13] at hreq
    simp at hreq
  rw [if_neg h13] at hreq
  by_cases h14 : ("@deps ".data).isPrefixOf (baseCmdOf c) = true
  · rw [if_pos h14] at hreq
    simp at hreq
  rw [if_neg h14] at hreq
  simp at hreq

/-- C2: shape of every remote chat request. `sendMessage` sends exactly
the full-transcript request (history plus the new contextualised user
turn, `stream := false`); every request a scoped command emits carries
exactly one user message; and chat requests arise only from the
`@workspace`, `@read ` and `@understand ` branches of the dispatcher. -/
theorem request_shapes_C2 :
    (∀ (message : Str) (st : SState) (env : Env) (r : RemoteCall),
      r ∈ (sendMessage message st env).2.2 →
        r = RemoteCall.chatReq
          (transcriptRequest st (contextMessageOf st message) env.now)) ∧
    (∀ (command : Str) (st : SState) (env : Env) (req : ChatRequest),
      RemoteCall.chatReq req ∈ (handleCommand command st env).calls →
        req.messages.length = 1 ∧
        (req.messages.headD { role := Role.user, content := [] }).role = Role.user) ∧
    (∀ (command : Str) (st : SState) (env : Env) (req : ChatRequest),
      RemoteCall.chatReq req ∈ (handleCommand command st env).calls →
        baseCmdOf command = "@workspace".data ∨
        ("@read ".data).isPrefixOf (baseCmdOf command) = true ∨
        ("@understand ".data).isPrefixOf (baseCmdOf command) = true) := by
  refine ⟨?_, ?_, ?_⟩
  · intro message st env r hr
    rw [sendMessage_calls] at hr
    by_cases ht : trimJS message = "@".data
    · rw [if_pos ht] at hr
      simp at hr
    · rw [if_neg ht] at hr
      exact List.mem_singleton.mp hr
  · intro command st env req hreq
    rw [handleCommand_calls_eq] at hreq
    exact (handleCommandCore_calls_shape command st env req hreq).1
  · intro command st env req hreq
    rw [handleCommand_calls_eq] at hreq
    exact (handleCommandCore_calls_shape command st env req hreq).2

/-- Witness for C2 at concrete inputs: the echoed `sendMessage` call is
the transcript request, and the `@workspace` request is single-message. -/
theorem request_shapes_C2_witness :
    (sendMessage "hello".data demoState echoEnv).2.2.headD RemoteCall.tagsReq =
      RemoteCall.chatReq (transcriptRequest demoState
        (contextMessageOf demoState "hello".data) echoEnv.now) ∧
    (singleUserRequest demoState.model
      ("Workspace Context:\n".data ++ "No workspace folder is open.".data ++
        "\n\nUser Query: ".data ++ "hi".data)).messages.length = 1 := by
  constructor
  · exact request_shapes_C2.1 "hello".data demoState echoEnv _ (by decide)
  · exact (request_shapes_C2.2.1 "@workspace: hi".data demoState echoEnv
      (singleUserRequest demoState.model
        ("Workspace Context:\n".data ++ "No workspace folder is open.".data ++
          "\n\nUser Query: ".data ++ "hi".data)) (by decide)).1

/-- Helper: the dispatch core never writes `workspaceContext` or
`currentFileContext`. -/
theorem handleCommandCore_contexts (c : Str) (st : SState) (env : Env) :
    (handleCommandCore c st env).2.1.workspaceContext = st.workspaceContext ∧
    (handleCommandCore c st env).2.1.currentFileContext = st.currentFileContext := by
  unfold handleCommandCore
  dsimp only
  by_cases h1 : baseCmdOf c = "@help".data
  · rw [if_pos h1]
    exact ⟨rfl, rfl⟩
  rw [if_neg h1]
  by_cases h2 : baseCmdOf c = "@list".data
  · rw [if_pos h2]
    cases env.tags <;> exact ⟨rfl, rfl⟩
  rw [if_neg h2]
  by_cases h3 : baseCmdOf c = "@clear".data
  · rw [if_pos h3]
    exact ⟨rfl, rfl⟩
  rw [if_neg h3]
  by_cases h4 : baseCmdOf c = "@info".data
  · rw [if_pos h4]
    exact ⟨rfl, rfl⟩
  rw [if_neg h4]
  by_cases h5 : baseCmdOf c = "@workspace".data
  · rw [if_pos h5]
    by_cases hq : queryOf c = []
    · rw [if_pos hq]
      exact ⟨rfl, rfl⟩
    · rw [if_neg hq]
      exact ⟨rfl, rfl⟩
  rw [if_neg h5]
  by_cases h6 : ("@model ".data).isPrefixOf (baseCmdOf c) = true
  · rw [if_pos h6]
    cases env.tags with
    | ok models =>
      dsimp only
      by_cases hany : (models.any fun m =>
          m.name == trimJS (List.drop 7 (baseCmdOf c))) = true
      · rw [if_pos hany]
        exact ⟨rfl, rfl⟩
      · rw [if_neg hany]
        exact ⟨rfl, rfl⟩
    | error e => exact ⟨rfl, rfl⟩
  rw [if_neg h6]
  by_cases h7 : ("@read ".data).isPrefixOf (baseCmdOf c) = true
  · rw [if_pos h7]
    by_cases hq : queryOf c = []
    · rw [if_pos hq]
      exact ⟨rfl, rfl⟩
    · rw [if_neg hq]
      cases readFile (trimJS (List.drop 6 (baseCmdOf c))) env <;> exact ⟨rfl, rfl⟩
  rw [if_neg h7]
  by_cases h8 : ("@understand ".data).isPrefixOf (baseCmdOf c) = true
  · rw [if_pos h8]
    cases readFile (trimJS (List.drop 12 (baseCmdOf c))) env <;> exact ⟨rfl, rfl⟩
  rw [if_neg h8]
  by_cases h9 : ("@analyze ".data).isPrefixOf (baseCmdOf c) = true
  · rw [if_pos h9]
    exact ⟨rfl, rfl⟩
  rw [if_neg h9]
  by_cases h10 : ("@search ".data).isPrefixOf (baseCmdOf c) = true
  · rw [if_pos h10]
    exact ⟨rfl, rfl⟩
  rw [if_neg h10]
  by_cases h11 : ("@edit ".data).isPrefixOf (baseCmdOf c) = true
  · rw [if_pos h11]
    cases editCapture (baseCmdOf c) <;> exact ⟨rfl, rfl⟩
  rw [if_neg h11]
  by_cases h12 : ("@explain ".data).isPrefixOf (baseCmdOf c) = true
  · rw [if_pos h12]
    exact ⟨rfl, rfl⟩
  rw [if_neg h12]
  by_cases h13 : ("@refactor ".data).isPrefixOf (baseCmdOf c) = true
  · rw [if_pos h13]
    exact ⟨rfl, rfl⟩
  rw [if_neg h13]
  by_cases h14 : ("@deps ".data).isPrefixOf (baseCmdOf c) = true
  · rw [if_pos h14]
    exact ⟨rfl, rfl⟩
  rw [if_neg h14]
  exact ⟨rfl, rfl⟩

/-- Helper: `handleCommand` never writes `workspaceContext` or
`currentFileContext`. -/
theorem handleCommand_contexts (c : Str) (st : SState) (env : Env) :
    (handleCommand c st env).state.workspaceContext = st.workspaceContext ∧
    (handleCommand c st env).state.currentFileContext = st.currentFileContext := by
  have h := handleCommandCore_contexts c st env
  unfold handleCommand
  rcases hc : handleCommandCore c st env with ⟨r, s2, calls⟩
  rw [hc] at h
  cases r <;> exact h

/-- Helper: characterisation of `sendMessage` — bare "@" returns the
suggestion list with no call and no state change; otherwise the
transcript request is sent and the history grows by the user turn plus,
on success, the assistant turn. -/
theorem sendMessage_eq (m : Str) (st : SState) (env : Env) :
    sendMessage m st env =
      if trimJS m = "@".data then (Except.ok getCommandSuggestions, st, [])
      else
        match env.chat (transcriptRequest st (contextMessageOf st m) env.now) with
        | Except.ok data =>
          (Except.ok data,
           { st with messageHistory := st.messageHistory ++
             [{ role := Role.user, content := contextMessageOf st m, timestamp := env.now }] ++
             [{ role := Role.assistant, content := data, timestamp := env.now }] },
           [RemoteCall.chatReq (transcriptRequest st (contextMessageOf st m) env.now)])
        | Except.error e =>
          (Except.error e,
           { st with messageHistory := st.messageHistory ++
             [{ role := Role.user, content := contextMessageOf st m, timestamp := env.now }] },
           [RemoteCall.chatReq (transcriptRequest st (contextMessageOf st m) env.now)]) := by
  unfold sendMessage
  by_cases ht : trimJS m = "@".data
  · rw [if_pos ht, if_pos ht]
  · rw [if_neg ht, if_neg ht]
    rfl

/-- Helper: `sendMessage` never writes `workspaceContext` or
`currentFileContext`. -/
theorem sendMessage_contexts (m : Str) (st : SState) (env : Env) :
    (sendMessage m st env).2.1.workspaceContext = st.workspaceContext ∧
    (sendMessage m st env).2.1.currentFileContext = st.currentFileContext := by
  rw [sendMessage_eq]
  by_cases ht : trimJS m = "@".data
  · rw [if_pos ht]
    exact ⟨rfl, rfl⟩
  · rw [if_neg ht]
    cases env.chat (transcriptRequest st (contextMessageOf st m) env.now) <;>
      exact ⟨rfl, rfl⟩

/-- Helper: from a state with empty contexts, a non-trigger `sendMessage`
appends its user turn (with the raw message as content) to the history. -/
theorem sendMessage_user_turn {st : SState} (hw : st.workspaceContext = [])
    (hf : st.currentFileContext = none) (msg : Str) (env : Env)
    (hne : trimJS msg ≠ "@".data) :
    ∃ tail, (sendMessage msg st env).2.1.messageHistory =
      st.messageHistory ++
        { role := Role.user, content := msg, timestamp := env.now } :: tail := by
  have hctx : contextMessageOf st msg = msg := by
    unfold contextMessageOf
    rw [hf, hw]
    simp
  rw [sendMessage_eq, if_neg hne, hctx]
  cases env.chat (transcriptRequest st msg env.now) with
  | ok data =>
    exact ⟨[{ role := Role.assistant, content := data, timestamp := env.now }],
      by simp⟩
  | error e => exact ⟨[], by simp⟩

/-- C9: over every reachable service state, `workspaceContext` stays `[]`
and `currentFileContext` stays `none` (the fields are declared but never
assigned), so the context message of every non-trigger `sendMessage`
degenerates to the raw user message: the recorded user turn carries
exactly the message text. -/
theorem session_contexts_C9 (s : SState) (h : Reachable s) :
    s.workspaceContext = [] ∧ s.currentFileContext = none ∧
    ∀ (msg : Str) (env : Env), trimJS msg ≠ "@".data →
      ∃ tail, (sendMessage msg s env).2.1.messageHistory =
        s.messageHistory ++
          { role := Role.user, content := msg, timestamp := env.now } :: tail := by
  have hctx : s.workspaceContext = [] ∧ s.currentFileContext = none := by
    induction h with
    | init apiUrl model => exact ⟨rfl, rfl⟩
    | send msg env hr ih =>
      exact ⟨(sendMessage_contexts msg _ env).1.trans ih.1,
        (sendMessage_contexts msg _ env).2.trans ih.2⟩
    | handle cmd env hr ih =>
      exact ⟨(handleCommand_contexts cmd _ env).1.trans ih.1,
        (handleCommand_contexts cmd _ env).2.trans ih.2⟩
    | setModelStep m hr ih => exact ih
    | clearHistoryStep hr ih => exact ih
    | addToHistoryStep m hr ih => exact ih
  exact ⟨hctx.1, hctx.2, fun msg env hne =>
    sendMessage_user_turn hctx.1 hctx.2 msg env hne⟩

/-- Witness for C9 at the initial demo state against the echo
environment. -/
theorem session_contexts_C9_witness :
    ∃ tail, (sendMessage "hello".data demoState echoEnv).2.1.messageHistory =
      demoState.messageHistory ++
        { role := Role.user, content := "hello".data,
          timestamp := echoEnv.now } :: tail :=
  (session_contexts_C9 demoState
    (Reachable.init "http://localhost:11434".data "llama2".data)).2.2
    "hello".data echoEnv (by decide)

/-- Helper: the dispatch core reads its command only through `baseCmdOf`
and `queryOf`, and its state only through `model` (plus the appended
history turn), so agreeing inputs give equal results, equal calls, equal
models and histories of equal growth. -/
theorem handleCommandCore_components (c1 c2 : Str) (st1 st2 : SState) (env : Env)
    (hb : baseCmdOf c1 = baseCmdOf c2) (hq : queryOf c1 = queryOf c2)
    (hm : st1.model = st2.model) :
    (handleCommandCore c1 st1 env).1 = (handleCommandCore c2 st2 env).1 ∧
    (handleCommandCore c1 st1 env).2.2 = (handleCommandCore c2 st2 env).2.2 ∧
    (handleCommandCore c1 st1 env).2.1.model =
      (handleCommandCore c2 st2 env).2.1.model ∧
    ((handleCommandCore c1 st1 env).2.1.messageHistory.length =
        st1.messageHistory.length + 1 ∧
      (handleCommandCore c2 st2 env).2.1.messageHistory.length =
        st2.messageHistory.length + 1 ∨
      ((handleCommandCore c1 st1 env).2.1.messageHistory = [] ∧
       (handleCommandCore c2 st2 env).2.1.messageHistory = [])) := by
  unfold handleCommandCore
  dsimp only
  rw [hb, hq, hm]
  by_cases h1 : baseCmdOf c2 = "@help".data
  · simp only [if_pos h1]
    exact ⟨by simp, by simp, by simp, Or.inl ⟨by simp, by simp⟩⟩
  simp only [if_neg h1]
  by_cases h2 : baseCmdOf c2 = "@list".data
  · simp only [if_pos h2]
    cases env.tags <;> exact ⟨by simp, by simp, by simp, Or.inl ⟨by simp, by simp⟩⟩
  simp only [if_neg h2]
  by_cases h3 : baseCmdOf c2 = "@clear".data
  · simp only [if_pos h3]
    exact ⟨by simp, by simp, by simp, Or.inr ⟨by simp, by simp⟩⟩
  simp only [if_neg h3]
  by_cases h4 : baseCmdOf c2 = "@info".data
  · simp only [if_pos h4]
    exact ⟨by simp, by simp, by simp, Or.inl ⟨by simp, by simp⟩⟩
  simp only [if_neg h4]
  by_cases h5 : baseCmdOf c2 = "@workspace".data
  · simp only [if_pos h5]
    by_cases hq2 : queryOf c2 = []
    · simp only [if_pos hq2]
      exact ⟨by simp, by simp, by simp, Or.inl ⟨by simp, by simp⟩⟩
    · simp only [if_neg hq2]
      exact ⟨by simp, by simp, by simp, Or.inl ⟨by simp, by simp⟩⟩
  simp only [if_neg h5]
  by_cases h6 : ("@model ".data).isPrefixOf (baseCmdOf c2) = true
  · simp only [if_pos h6]
    cases env.tags with
    | ok models =>
      dsimp only
      by_cases hany : (models.any fun m =>
          m.name == trimJS (List.drop 7 (baseCmdOf c2))) = true
      · simp only [if_pos hany]
        exact ⟨by simp, by simp, by simp, Or.inr ⟨by simp, by simp⟩⟩
      · simp only [if_neg hany]
        exact ⟨by simp, by simp, by simp, Or.inl ⟨by simp, by simp⟩⟩
    | error e => exact ⟨by simp, by simp, by simp, Or.inl ⟨by simp, by simp⟩⟩
  simp only [if_neg h6]
  by_cases h7 : ("@read ".data).isPrefixOf (baseCmdOf c2) = true
  · simp only [if_pos h7]
    by_cases hq2 : queryOf c2 = []
    · simp only [if_pos hq2]
      exact ⟨by simp, by simp, by simp, Or.inl ⟨by simp, by simp⟩⟩
    · simp only [if_neg hq2]
      cases readFile (trimJS (List.drop 6 (baseCmdOf c2))) env <;>
        exact ⟨by simp, by simp, by simp, Or.inl ⟨by simp, by simp⟩⟩
  simp only [if_neg h7]
  by_cases h8 : ("@understand ".data).isPrefixOf (baseCmdOf c2) = true
  · simp only [if_pos h8]
    cases readFile (trimJS (List.drop 12 (baseCmdOf c2))) env <;>
      exact ⟨by simp, by simp, by simp, Or.inl ⟨by simp, by simp⟩⟩
  simp only [if_neg h8]
  by_cases h9 : ("@analyze ".data).isPrefixOf (baseCmdOf c2) = true
  · simp only [if_pos h9]
    exact ⟨by simp, by simp, by simp, Or.inl ⟨by simp, by simp⟩⟩
  simp only [if_neg h9]
  by_cases h10 : ("@search ".data).isPrefixOf (baseCmdOf c2) = true
  · simp only [if_pos h10]
    exact ⟨by simp, by simp, by simp, Or.inl ⟨by simp, by simp⟩⟩
  simp only [if_neg h10]
  by_cases h11 : ("@edit ".data).isPrefixOf (baseCmdOf c2) = true
  · simp only [if_pos h11]
    cases editCapture (baseCmdOf c2) <;>
      exact ⟨by simp, by simp, by simp, Or.inl ⟨by simp, by simp⟩⟩
  simp only [if_neg h11]
  by_cases h12 : ("@explain ".data).isPrefixOf (baseCmdOf c2) = true
  · simp only [if_pos h12]
    exact ⟨by simp, by simp, by simp, Or.inl ⟨by simp, by simp⟩⟩
  simp only [if_neg h12]
  by_cases h13 : ("@refactor ".data).isPrefixOf (baseCmdOf c2) = true
  · simp only [if_pos h13]
    exact ⟨by simp, by simp, by simp, Or.inl ⟨by simp, by simp⟩⟩
  simp only [if_neg h13]
  by_cases h14 : ("@deps ".data).isPrefixOf (baseCmdOf c2) = true
  · simp only [if_pos h14]
    exact ⟨by simp, by simp, by simp, Or.inl ⟨by simp, by simp⟩⟩
  simp only [if_neg h14]
  exact ⟨by simp, by simp, by simp, Or.inl ⟨by simp, by simp⟩⟩

/-- C4 amended: commands are compared case-insensitively — in fact the
*entire* trimmed input is lower-cased before dispatch, so two inputs with
the same lower-cased trim produce the same result, the same remote calls,
the same model and histories of the same length. Consequently arguments
(file names, queries) reach the handlers lower-cased too, not in their
original case as the claim suggests. -/
theorem case_insensitive_C4_amended (c1 c2 : Str) (st : SState) (env : Env)
    (h : toLowerStr (trimJS c1) = toLowerStr (trimJS c2)) :
    (handleCommand c1 st env).result = (handleCommand c2 st env).result ∧
    (handleCommand c1 st env).calls = (handleCommand c2 st env).calls ∧
    (handleCommand c1 st env).state.model = (handleCommand c2 st env).state.model ∧
    (handleCommand c1 st env).state.messageHistory.length =
      (handleCommand c2 st env).state.messageHistory.length := by
  have hb : baseCmdOf c1 = baseCmdOf c2 := by
    unfold baseCmdOf
    rw [h]
  have hq : queryOf c1 = queryOf c2 := by
    unfold queryOf
    rw [h]
  obtain ⟨hres, hcalls, hmodel, hhist⟩ :=
    handleCommandCore_components c1 c2 st st env hb hq rfl
  unfold handleCommand
  rcases hc1 : handleCommandCore c1 st env with ⟨r1, s1, k1⟩
  rcases hc2 : handleCommandCore c2 st env with ⟨r2, s2, k2⟩
  rw [hc1, hc2] at hres hcalls hmodel hhist
  dsimp only at hres hcalls hmodel hhist
  subst hres
  subst hcalls
  cases r1 <;>
    exact ⟨rfl, rfl, hmodel,
      by rcases hhist with ⟨l1, l2⟩ | ⟨l1, l2⟩ <;> rw [l1, l2]⟩

/-- C4 counterexample: `@read File.TS: Hello` reads `file.ts` and embeds
the lower-cased query `hello`; the original-case argument `File.TS`
appears nowhere in the result, refuting "arguments keep their original
case". -/
theorem case_insensitive_C4_counterexample :
    (handleCommand "@read File.TS: Hello".data demoState readEnv).result =
      "File Context (file.ts):\nCONTENT\n\nUser Query: hello".data ∧
    includesStr "File.TS".data
      (handleCommand "@read File.TS: Hello".data demoState readEnv).result =
      false := by
  decide

/-- Witness for C4 at the concrete pair `@INFO` / `@info`. -/
theorem case_insensitive_C4_witness :
    (handleCommand "@INFO".data demoState echoEnv).result =
      (handleCommand "@info".data demoState echoEnv).result :=
  (case_insensitive_C4_amended "@INFO".data "@info".data demoState echoEnv
    (by decide)).1
